import Mathlib

/-!
Verification of the Keysha calendar synchronization engine.

This file gives a shallow embedding, in Lean 4, of the synchronization core of
the repository: the sync-state ledger (integration-service syncService.ts), the
duplicate resolver (calendarService.ts findCalendarEventByTitleAndTime), the
full-reconciliation route (webhooks.routes.ts POST /sync/full), the webhook
deletion sweep (webhooks.routes.ts POST /webhooks/google/calendar), and the
item-service routes (items.routes.ts) together with the cross-service calls
they make into each other.

Modelling conventions:
 - timestamps are Int (milliseconds); identifiers are Nat;
 - MongoDB documents become Lean structures, collections become lists; a
   Mongo findOne is List.find? over the list, findOneAndUpdate with upsert is
   an update-first-or-insert, deleteOne is List.eraseP;
 - JavaScript strings are Lean Strings; trim / startsWith / the reminder
   emoji handling are implemented character-exactly (the emoji is one Lean
   Char; the JS substring(2) drops the two UTF-16 units of that one emoji,
   hence one Char here);
 - every flow is sequential (the services run one request at a time in the
   model), and cross-service HTTP calls are inlined as function calls, since
   each route's handler is itself modelled;
 - fallible external lookups are passed in as Except values where a claim is
   about failure behaviour.
-/

namespace Keysha

/-! ## The sync ledger (SyncState model, syncService.ts) -/

/-- A SyncState document: one row of the sync ledger. The source schema also
has a required lastGoogleModified, but markAppModified's upsert does not set
it, so a row freshly created by that path lacks it; we model it as optional. -/
structure SyncRec where
  itemId : Nat
  googleCalendarId : Nat
  lastAppModified : Int
  lastGoogleModified : Option Int
  syncing : Bool
deriving DecidableEq, Repr

/-- SyncState.findOne by googleCalendarId (the unique index used everywhere). -/
def findRec (l : List SyncRec) (g : Nat) : Option SyncRec :=
  l.find? (fun r => r.googleCalendarId == g)

/-- The conflicting-record deletion shared by markAppModified and
markGoogleModified: findOne a record with this itemId but another
googleCalendarId, and deleteOne it. -/
def eraseConflict (l : List SyncRec) (i g : Nat) : List SyncRec :=
  l.eraseP (fun r => r.itemId == i && r.googleCalendarId != g)

/-- Replace the first element satisfying p by its image under f
(Mongo findOneAndUpdate without upsert). -/
def updateFirst (p : α → Bool) (f : α → α) : List α → List α
  | [] => []
  | x :: xs => if p x then f x :: xs else x :: updateFirst p f xs

/-- syncService.markAppModified: delete a conflicting record for the same
itemId, then upsert keyed by googleCalendarId, setting
lastAppModified := now and syncing := true. -/
def markAppModified (i g : Nat) (now : Int) (l : List SyncRec) : List SyncRec :=
  let l1 := eraseConflict l i g
  if (findRec l1 g).isSome then
    updateFirst (fun r => r.googleCalendarId == g)
      (fun r => { r with itemId := i, lastAppModified := now, syncing := true }) l1
  else
    { itemId := i, googleCalendarId := g, lastAppModified := now,
      lastGoogleModified := none, syncing := true } :: l1

/-- syncService.markGoogleModified: look up the existing record by
googleCalendarId first, delete a conflicting record for the same itemId, then
upsert keyed by googleCalendarId, preserving the looked-up lastAppModified
(defaulting to now), setting lastGoogleModified and clearing syncing. -/
def markGoogleModified (i g : Nat) (t now : Int) (l : List SyncRec) : List SyncRec :=
  let existing := findRec l g
  let l1 := eraseConflict l i g
  let lastApp := match existing with
    | some r => r.lastAppModified
    | none => now
  if (findRec l1 g).isSome then
    updateFirst (fun r => r.googleCalendarId == g)
      (fun r => { r with itemId := i, lastGoogleModified := some t,
                         lastAppModified := lastApp, syncing := false }) l1
  else
    { itemId := i, googleCalendarId := g, lastAppModified := lastApp,
      lastGoogleModified := some t, syncing := false } :: l1

/-- syncService.shouldProcessWebhook, with the SyncState.findOne result passed
in as an Except so that the catch branch (lookup failure, fail open) is
represented: no record means process; otherwise process exactly when Google's
timestamp is strictly newer than lastAppModified; on lookup error, process. -/
def shouldProcessWebhook (lookup : Except Unit (Option SyncRec))
    (googleLastModified : Int) : Bool :=
  match lookup with
  | .error _ => true
  | .ok none => true
  | .ok (some syncState) => decide (syncState.lastAppModified < googleLastModified)

/-- shouldProcessWebhook run against a ledger whose lookup succeeds. -/
def shouldProcessWebhookL (l : List SyncRec) (g : Nat) (t : Int) : Bool :=
  shouldProcessWebhook (.ok (findRec l g)) t

/-! ### Helper lemmas about updateFirst and find? -/

theorem updateFirst_map_key {κ : α → β} {p : α → Bool} {f : α → α}
    (hf : ∀ x, p x = true → κ (f x) = κ x) :
    ∀ l : List α, (updateFirst p f l).map κ = l.map κ := by
  intro l
  induction l with
  | nil => rfl
  | cons x xs ih =>
    by_cases hx : p x = true
    · simp [updateFirst, hx, hf x hx, ih]
    · simp [updateFirst, hx, ih]

theorem find?_updateFirst {p : α → Bool} {f : α → α}
    (hf : ∀ x, p x = true → p (f x) = true) :
    ∀ l : List α, (l.find? p).isSome = true →
      (updateFirst p f l).find? p = (l.find? p).map f := by
  intro l
  induction l with
  | nil => intro h; simp [List.find?] at h
  | cons x xs ih =>
    intro h
    by_cases hx : p x = true
    · simp [updateFirst, hx, List.find?, hf x hx]
    · have hcons : updateFirst p f (x :: xs) = x :: updateFirst p f xs := by
        simp [updateFirst, hx]
      rw [hcons, List.find?_cons_of_neg _ hx, List.find?_cons_of_neg _ hx]
      rw [List.find?_cons_of_neg _ hx] at h
      exact ih h

theorem mem_updateFirst {p : α → Bool} {f : α → α} :
    ∀ {l : List α} {x : α}, x ∈ updateFirst p f l →
      x ∈ l ∨ ∃ y ∈ l, p y = true ∧ x = f y := by
  intro l
  induction l with
  | nil => intro x h; simp [updateFirst] at h
  | cons a as ih =>
    intro x h
    by_cases ha : p a = true
    · simp only [updateFirst, ha, if_true] at h
      rcases List.mem_cons.mp h with h1 | h2
      · exact Or.inr ⟨a, List.mem_cons_self a as, ha, h1⟩
      · exact Or.inl (List.mem_cons_of_mem a h2)
    · simp only [updateFirst, ha, if_false] at h
      rcases List.mem_cons.mp h with h1 | h2
      · exact Or.inl (h1 ▸ List.mem_cons_self a as)
      · rcases ih h2 with h3 | ⟨y, hy, hpy, hxy⟩
        · exact Or.inl (List.mem_cons_of_mem a h3)
        · exact Or.inr ⟨y, List.mem_cons_of_mem a hy, hpy, hxy⟩

/-- Looking up the just-written key after markAppModified yields a record with
lastAppModified = now. -/
theorem findRec_markAppModified (i g : Nat) (now : Int) (l : List SyncRec) :
    ∃ r, findRec (markAppModified i g now l) g = some r ∧
      r.lastAppModified = now := by
  unfold markAppModified
  set l1 := eraseConflict l i g with hl1
  by_cases h : (findRec l1 g).isSome = true
  · simp only [h, if_true]
    have hpres : ∀ r : SyncRec, (r.googleCalendarId == g) = true →
        (({ r with itemId := i, lastAppModified := now, syncing := true } :
          SyncRec).googleCalendarId == g) = true := by
      intro r hr; simpa using hr
    have := @find?_updateFirst SyncRec (fun r : SyncRec => r.googleCalendarId == g)
      (fun r => { r with itemId := i, lastAppModified := now, syncing := true })
      hpres l1 h
    rcases Option.isSome_iff_exists.mp h with ⟨r0, hr0⟩
    refine ⟨{ r0 with itemId := i, lastAppModified := now, syncing := true }, ?_, rfl⟩
    unfold findRec at *
    rw [this, hr0]
    rfl
  · rw [if_neg h]
    refine ⟨{ itemId := i, googleCalendarId := g, lastAppModified := now,
              lastGoogleModified := none, syncing := true }, ?_, rfl⟩
    unfold findRec
    rw [List.find?_cons_of_pos]
    simp

/-- Claim C1. shouldApplyRemoteChange (shouldProcessWebhook): on a successful
lookup it returns true iff no SyncState record exists for the event or the
supplied remote timestamp is strictly greater than the record's
lastAppModified (so in every other successful-lookup case it returns false);
on a lookup failure it fails open, returning true; and after a local push
records lastAppModified = t0 via markAppModified, a webhook carrying a remote
timestamp t <= t0 for that same event id is suppressed (returns false). -/
theorem shouldProcessWebhook_spec :
    (∀ (lookup : Option SyncRec) (t : Int),
        shouldProcessWebhook (.ok lookup) t = true ↔
          lookup = none ∨ ∃ r, lookup = some r ∧ r.lastAppModified < t) ∧
    (∀ t : Int, shouldProcessWebhook (.error ()) t = true) ∧
    (∀ (l : List SyncRec) (i g : Nat) (t0 t : Int), t ≤ t0 →
        shouldProcessWebhookL (markAppModified i g t0 l) g t = false) := by
  refine ⟨?_, ?_, ?_⟩
  · intro lookup t
    cases lookup with
    | none => simp [shouldProcessWebhook]
    | some r =>
      simp only [shouldProcessWebhook, decide_eq_true_eq]
      constructor
      · intro h; exact Or.inr ⟨r, rfl, h⟩
      · rintro (h | ⟨r', hr', hlt⟩)
        · cases h
        · injection hr' with hrr
          subst hrr
          exact hlt
  · intro t; rfl
  · intro l i g t0 t ht
    rcases findRec_markAppModified i g t0 l with ⟨r, hr, hla⟩
    unfold shouldProcessWebhookL
    rw [hr]
    show decide (r.lastAppModified < t) = false
    simp only [decide_eq_false_iff_not, not_lt]
    rw [hla]
    exact ht

/-- Witness for C1: concrete instantiation of each hypothesis-bearing part. -/
theorem shouldProcessWebhook_spec_witness :
    shouldProcessWebhookL (markAppModified 1 2 (100 : Int) []) 2 (100 : Int) = false := by
  exact shouldProcessWebhook_spec.2.2 [] 1 2 100 100 (le_refl _)

/-! ## Claim C2: ledger mapping uniqueness -/

/-- The Sync Ledger uniqueness invariant: no two records share a
googleCalendarId and no two share an itemId. -/
def LedgerUniq (l : List SyncRec) : Prop :=
  (l.map (·.googleCalendarId)).Nodup ∧ (l.map (·.itemId)).Nodup

theorem ledgerUniq_nil : LedgerUniq [] := ⟨List.nodup_nil, List.nodup_nil⟩

theorem ledgerUniq_eraseConflict {l : List SyncRec} (i g : Nat) (h : LedgerUniq l) :
    LedgerUniq (eraseConflict l i g) := by
  unfold eraseConflict
  exact ⟨List.Nodup.sublist (List.Sublist.map _ (List.eraseP_sublist l)) h.1,
         List.Nodup.sublist (List.Sublist.map _ (List.eraseP_sublist l)) h.2⟩

/-- In a uniq ledger, any record surviving the conflict deletion for (i, g)
that still carries itemId = i must be the record keyed by g itself. -/
theorem gid_of_mem_eraseConflict {l : List SyncRec} {i g : Nat} (h : LedgerUniq l)
    {r : SyncRec} (hr : r ∈ eraseConflict l i g) (hi : r.itemId = i) :
    r.googleCalendarId = g := by
  by_contra hg
  have hmem : r ∈ l := List.Sublist.subset (List.eraseP_sublist l) hr
  have hp : (fun r : SyncRec => r.itemId == i && r.googleCalendarId != g) r = true := by
    simp [hi, hg]
  have hex := @List.exists_of_eraseP SyncRec
    (fun r : SyncRec => r.itemId == i && r.googleCalendarId != g) l r hmem hp
  obtain ⟨a, l₁, l₂, hnl₁, hpa, hleq, herase⟩ := hex
  unfold eraseConflict at hr
  rw [herase] at hr
  have hai : a.itemId = i := by
    have hpa' := hpa
    simp only [Bool.and_eq_true, beq_iff_eq, bne_iff_ne, ne_eq] at hpa'
    exact hpa'.1
  have hnodup := h.2
  rw [hleq, List.map_append, List.map_cons] at hnodup
  rcases List.mem_append.mp hr with hrl | hrl
  · exact (hnl₁ r hrl) hp
  · have hmem2 : a.itemId ∈ l₂.map (·.itemId) :=
      List.mem_map.mpr ⟨r, hrl, by rw [hi, hai]⟩
    have hno := (List.nodup_append.mp hnodup).2.1
    rw [List.nodup_cons] at hno
    exact hno.1 hmem2

theorem gid_notMem_of_findRec_none {l1 : List SyncRec} {g : Nat}
    (hnone : ¬ (findRec l1 g).isSome = true) : g ∉ l1.map (·.googleCalendarId) := by
  intro hmem
  apply hnone
  unfold findRec
  rw [List.find?_isSome]
  rcases List.mem_map.mp hmem with ⟨r, hr, hrg⟩
  exact ⟨r, hr, by simp [hrg]⟩

theorem itemId_notMem_of_findRec_none {l : List SyncRec} {i g : Nat} (h : LedgerUniq l)
    (hnone : ¬ (findRec (eraseConflict l i g) g).isSome = true) :
    ∀ r ∈ eraseConflict l i g, r.itemId ≠ i := by
  intro r hr hi
  apply hnone
  have hg := gid_of_mem_eraseConflict h hr hi
  unfold findRec
  rw [List.find?_isSome]
  exact ⟨r, hr, by simp [hg]⟩

theorem exists_split_of_find?_isSome {p : α → Bool} :
    ∀ {l : List α}, (l.find? p).isSome = true →
      ∃ l₁ x l₂, l = l₁ ++ x :: l₂ ∧ p x = true ∧ ∀ a ∈ l₁, p a = false := by
  intro l
  induction l with
  | nil => intro h; simp at h
  | cons a as ih =>
    intro h
    by_cases ha : p a = true
    · exact ⟨[], a, as, rfl, ha, by intro b hb; cases hb⟩
    · rw [List.find?_cons_of_neg _ ha] at h
      obtain ⟨l₁, x, l₂, heq, hx, hl₁⟩ := ih h
      refine ⟨a :: l₁, x, l₂, by rw [heq]; rfl, hx, ?_⟩
      intro b hb
      rcases List.mem_cons.mp hb with h1 | h2
      · subst h1; simpa using ha
      · exact hl₁ b h2

theorem updateFirst_append {p : α → Bool} {f : α → α} :
    ∀ (l₁ : List α) (x : α) (l₂ : List α), (∀ a ∈ l₁, p a = false) → p x = true →
      updateFirst p f (l₁ ++ x :: l₂) = l₁ ++ f x :: l₂ := by
  intro l₁
  induction l₁ with
  | nil => intro x l₂ _ hx; simp [updateFirst, hx]
  | cons a as ih =>
    intro x l₂ hall hx
    have ha : p a = false := hall a (List.mem_cons_self a as)
    simp only [List.cons_append, updateFirst, ha, Bool.false_eq_true, if_false]
    simp only [List.append_eq]
    rw [ih x l₂ (fun b hb => hall b (List.mem_cons_of_mem a hb)) hx]

theorem nodup_append_cons_replace {xs ys : List α} {a b : α}
    (h : List.Nodup (xs ++ a :: ys)) (hbx : b ∉ xs) (hby : b ∉ ys) :
    List.Nodup (xs ++ b :: ys) := by
  rw [List.nodup_append] at h ⊢
  obtain ⟨h1, h2, h3⟩ := h
  rw [List.nodup_cons] at h2 ⊢
  refine ⟨h1, ⟨hby, h2.2⟩, ?_⟩
  intro c hc hcmem
  rcases List.mem_cons.mp hcmem with rfl | hcy
  · exact hbx hc
  · exact h3 hc (List.mem_cons_of_mem _ hcy)

/-- Core preservation lemma: the delete-conflict-then-upsert-by-googleCalendarId
shape shared by markAppModified and markGoogleModified keeps the ledger uniq,
whenever the update function writes itemId := i and keeps the key, and the
freshly inserted record carries exactly (i, g). -/
theorem ledgerUniq_upsertByG {l : List SyncRec} {i g : Nat}
    (f : SyncRec → SyncRec) (mk : SyncRec)
    (hfI : ∀ r, (f r).itemId = i) (hfG : ∀ r, (f r).googleCalendarId = r.googleCalendarId)
    (hmkI : mk.itemId = i) (hmkG : mk.googleCalendarId = g)
    (h : LedgerUniq l) :
    LedgerUniq (
      if (findRec (eraseConflict l i g) g).isSome then
        updateFirst (fun r => r.googleCalendarId == g) f (eraseConflict l i g)
      else mk :: eraseConflict l i g) := by
  have h1 : LedgerUniq (eraseConflict l i g) := ledgerUniq_eraseConflict i g h
  by_cases hs : (findRec (eraseConflict l i g) g).isSome = true
  · rw [if_pos hs]
    have hs' : ((eraseConflict l i g).find?
        (fun r => r.googleCalendarId == g)).isSome = true := hs
    obtain ⟨A, x, B, heq, hx, hA⟩ := exists_split_of_find?_isSome hs'
    have hxg : x.googleCalendarId = g := by simpa using hx
    constructor
    · rw [updateFirst_map_key (fun y _ => hfG y)]
      exact h1.1
    · rw [heq, updateFirst_append A x B hA hx, List.map_append, List.map_cons]
      have hGnodup : ((A.map (·.googleCalendarId)) ++
          x.googleCalendarId :: B.map (·.googleCalendarId)).Nodup := by
        have := h1.1
        rw [heq, List.map_append, List.map_cons] at this
        exact this
      have hInodup : ((A.map (·.itemId)) ++ x.itemId :: B.map (·.itemId)).Nodup := by
        have := h1.2
        rw [heq, List.map_append, List.map_cons] at this
        exact this
      have hIA : i ∉ A.map (·.itemId) := by
        intro hmem
        rcases List.mem_map.mp hmem with ⟨a, ha, hai⟩
        have hag : a.googleCalendarId = g :=
          gid_of_mem_eraseConflict h (by rw [heq]; exact List.mem_append_left _ ha) hai
        have hfalse := hA a ha
        rw [hag] at hfalse
        simp at hfalse
      have hIB : i ∉ B.map (·.itemId) := by
        intro hmem
        rcases List.mem_map.mp hmem with ⟨b, hb, hbi⟩
        have hbg : b.googleCalendarId = g :=
          gid_of_mem_eraseConflict h
            (by rw [heq]; exact List.mem_append_right _ (List.mem_cons_of_mem _ hb)) hbi
        have hno := (List.nodup_append.mp hGnodup).2.1
        rw [List.nodup_cons] at hno
        apply hno.1
        rw [hxg]
        exact List.mem_map.mpr ⟨b, hb, hbg⟩
      rw [hfI x]
      exact nodup_append_cons_replace hInodup hIA hIB
  · rw [if_neg hs]
    constructor
    · rw [List.map_cons, List.nodup_cons]
      refine ⟨?_, h1.1⟩
      rw [hmkG]
      exact gid_notMem_of_findRec_none hs
    · rw [List.map_cons, List.nodup_cons]
      refine ⟨?_, h1.2⟩
      rw [hmkI]
      intro hmem
      rcases List.mem_map.mp hmem with ⟨r, hr, hri⟩
      exact itemId_notMem_of_findRec_none h hs r hr hri

theorem ledgerUniq_markAppModified {l : List SyncRec} (i g : Nat) (now : Int)
    (h : LedgerUniq l) : LedgerUniq (markAppModified i g now l) :=
  ledgerUniq_upsertByG
    (fun r => { r with itemId := i, lastAppModified := now, syncing := true })
    { itemId := i, googleCalendarId := g, lastAppModified := now,
      lastGoogleModified := none, syncing := true }
    (fun _ => rfl) (fun _ => rfl) rfl rfl h

theorem ledgerUniq_markGoogleModified {l : List SyncRec} (i g : Nat) (t now : Int)
    (h : LedgerUniq l) : LedgerUniq (markGoogleModified i g t now l) :=
  ledgerUniq_upsertByG
    (fun r => { r with itemId := i, lastGoogleModified := some t,
                       lastAppModified := match findRec l g with
                         | some r0 => r0.lastAppModified
                         | none => now,
                       syncing := false })
    { itemId := i, googleCalendarId := g,
      lastAppModified := match findRec l g with
        | some r0 => r0.lastAppModified
        | none => now,
      lastGoogleModified := some t, syncing := false }
    (fun _ => rfl) (fun _ => rfl) rfl rfl h

/-- One call into the Sync Ledger: a local-change record (markAppModified) or a
remote-change record (markGoogleModified). -/
inductive SyncOp where
  | appMod (i g : Nat) (now : Int)
  | googleMod (i g : Nat) (t now : Int)

def applyOp (op : SyncOp) (l : List SyncRec) : List SyncRec :=
  match op with
  | .appMod i g now => markAppModified i g now l
  | .googleMod i g t now => markGoogleModified i g t now l

/-- Run a whole sequence of ledger writes starting from the empty ledger. -/
def applyOps (ops : List SyncOp) : List SyncRec :=
  ops.foldl (fun acc op => applyOp op acc) []

/-- Claim C2. After any sequence of recordLocalChange (markAppModified) and
recordRemoteChange (markGoogleModified) calls, the Sync Ledger contains at
most one record per googleCalendarId and at most one per itemId: every write
first deletes a record binding the same itemId to a different
googleCalendarId, then upserts keyed by googleCalendarId. -/
theorem ledger_mapping_uniqueness : ∀ ops : List SyncOp, LedgerUniq (applyOps ops) := by
  have key : ∀ (ops : List SyncOp) (l : List SyncRec), LedgerUniq l →
      LedgerUniq (ops.foldl (fun acc op => applyOp op acc) l) := by
    intro ops
    induction ops with
    | nil => intro l h; exact h
    | cons op rest ih =>
      intro l h
      apply ih
      cases op with
      | appMod i g now => exact ledgerUniq_markAppModified i g now h
      | googleMod i g t now => exact ledgerUniq_markGoogleModified i g t now h
  intro ops
  exact key ops [] ledgerUniq_nil

/-! ## Strings: JS trim / startsWith / the reminder emoji marker -/

def isWS (c : Char) : Bool := c == ' ' || c == '\t' || c == '\n' || c == '\r'

def trimChars (l : List Char) : List Char :=
  ((l.dropWhile isWS).reverse.dropWhile isWS).reverse

/-- JS String.prototype.trim on the model's character list. -/
def strTrim (s : String) : String := ⟨trimChars s.data⟩

/-- JS substring(2) after a bell marker: the bell emoji is one Lean Char but
two UTF-16 units, so substring(2) drops exactly one Char. -/
def strDrop1 (s : String) : String := ⟨s.data.drop 1⟩

def bellChar : Char := '🔔'

/-- The reminder marker the engine puts in front of projected reminders. -/
def bellMark : String := ⟨[bellChar, ' ']⟩

/-- JS startsWith of the marker string: first surrogate pair is the bell,
next unit a space. -/
def startsWithBell (s : String) : Bool :=
  match s.data with
  | c :: c2 :: _ => c == bellChar && c2 == ' '
  | _ => false

/-- The title comparison inside findCalendarEventByTitleAndTime: trim both
sides, accept an exact match, else strip a leading bell marker from the event
title (substring(2) then trim) and compare again. -/
def titleMatches (eventSummary searchTitle : String) : Bool :=
  let eventTitle := strTrim eventSummary
  let wanted := strTrim searchTitle
  if eventTitle == wanted then true
  else if startsWithBell eventTitle then strTrim (strDrop1 eventTitle) == wanted
  else false

/-! ## Remote events and the duplicate resolver (calendarService.ts) -/

/-- A Google Calendar event as the engine reads it from the provider API.
start / end dateTimes may be absent (all-day events carry only dates). -/
structure GEvent where
  id : Nat
  summary : String
  description : Option String
  location : Option String
  startDT : Option Int
  endDT : Option Int
  updated : Int
deriving DecidableEq, Repr

def minuteMs : Int := 60000

def fifteenMinutesMs : Int := 15 * minuteMs

def thirtyMinutesMs : Int := 30 * minuteMs

def oneHourMs : Int := 60 * minuteMs

def oneDayMs : Int := 24 * oneHourMs

def startOf (e : GEvent) : Int := e.startDT.getD 0

def insertByStart (e : GEvent) : List GEvent → List GEvent
  | [] => [e]
  | x :: xs => if startOf e ≤ startOf x then e :: x :: xs else x :: insertByStart e xs

/-- Order a listing by event start time (the orderBy startTime request). -/
def sortByStart (l : List GEvent) : List GEvent := l.foldr insertByStart []

/-- The calendar.events.list call of the duplicate resolver: events whose
start lies in the ±30-minute window around the candidate start, ordered by
start time, capped at maxResults 100. -/
def listEventsAround (remote : List GEvent) (s : Int) : List GEvent :=
  (sortByStart (remote.filter (fun e =>
    match e.startDT with
    | some x => decide (s - thirtyMinutesMs ≤ x) && decide (x ≤ s + thirtyMinutesMs)
    | none => false))).take 100

/-- calendarService.findCalendarEventByTitleAndTime: list a ±30-minute window
around startDate, then return the id of the first event having a nonempty
summary and a start dateTime, whose (trim- and bell-aware) title matches and
whose start is within ±5 minutes of startDate; none when nothing matches.
The endDate argument is taken but never used, as in the source. -/
def findCalendarEventByTitleAndTime (remote : List GEvent) (title : String)
    (startDate _endDate : Int) : Option Nat :=
  ((listEventsAround remote startDate).find? (fun e =>
      match e.startDT with
      | none => false
      | some es =>
        !e.summary.isEmpty && titleMatches e.summary title &&
          decide ((es - startDate).natAbs ≤ 300000))).map (·.id)

/-- findCalendarEventByTitleAndTime with the provider listing as a fallible
call: the catch branch returns null (no duplicate found) on any error. -/
def findCalendarEventByTitleAndTimeE (listing : Except Unit (List GEvent))
    (title : String) (startDate endDate : Int) : Option Nat :=
  match listing with
  | .error _ => none
  | .ok remote => findCalendarEventByTitleAndTime remote title startDate endDate

/-- The acceptance condition of the Duplicate Resolver, written out as the
spec states it: a usable nonempty summary, a start time within ±5 minutes of
the candidate start, and a summary equal to the title exactly or equal to it
after stripping the reminder marker (comparisons on trimmed strings). -/
def ResolverAccepts (title : String) (s : Int) (e : GEvent) : Prop :=
  (∃ x, e.startDT = some x ∧ (x - s).natAbs ≤ 300000) ∧
  e.summary ≠ "" ∧
  (strTrim e.summary = strTrim title ∨
    (startsWithBell (strTrim e.summary) = true ∧
      strTrim (strDrop1 (strTrim e.summary)) = strTrim title))

theorem summary_isEmpty_iff (s : String) : s.isEmpty = true ↔ s = "" :=
  String.isEmpty_iff s

/-- The Bool check of the source matches ResolverAccepts. -/
theorem resolver_cond_iff (title : String) (s : Int) (e : GEvent) :
    ((match e.startDT with
      | none => false
      | some es =>
        !e.summary.isEmpty && titleMatches e.summary title &&
          decide ((es - s).natAbs ≤ 300000)) = true) ↔ ResolverAccepts title s e := by
  cases hst : e.startDT with
  | none =>
    simp only [ResolverAccepts, hst]
    constructor
    · intro h; cases h
    · rintro ⟨⟨x, hx, _⟩, _, _⟩; cases hx
  | some es =>
    simp only [ResolverAccepts, hst, Bool.and_eq_true, Bool.not_eq_true',
      decide_eq_true_eq]
    constructor
    · rintro ⟨⟨hne, htm⟩, habs⟩
      refine ⟨⟨es, rfl, habs⟩, ?_, ?_⟩
      · intro hcon
        rw [hcon] at hne
        cases hne
      · unfold titleMatches at htm
        by_cases heq : strTrim e.summary == strTrim title
        · exact Or.inl (by simpa using heq)
        · simp only [heq, if_false] at htm
          by_cases hsb : startsWithBell (strTrim e.summary) = true
          · rw [if_pos hsb] at htm
            exact Or.inr ⟨hsb, by simpa using htm⟩
          · rw [if_neg hsb] at htm
            cases htm
    · rintro ⟨⟨x, hx, habs⟩, hne, htm⟩
      injection hx with hx
      subst hx
      refine ⟨⟨?_, ?_⟩, habs⟩
      · cases hie : e.summary.isEmpty with
        | false => rfl
        | true => exact absurd ((summary_isEmpty_iff e.summary).mp hie) hne
      · unfold titleMatches
        rcases htm with h1 | ⟨h2, h3⟩
        · simp [h1]
        · by_cases heq : strTrim e.summary == strTrim title
          · simp [heq]
          · simp only [heq, if_false, h2, if_true]
            simpa using h3

/-- find? characterized by a first-match split of the list. -/
theorem find?_eq_some_split {p : α → Bool} :
    ∀ {l : List α} {x : α}, l.find? p = some x ↔
      ∃ l₁ l₂, l = l₁ ++ x :: l₂ ∧ p x = true ∧ ∀ a ∈ l₁, p a = false := by
  intro l x
  induction l with
  | nil =>
    simp only [List.find?]
    constructor
    · intro h; cases h
    · rintro ⟨l₁, l₂, heq, _, _⟩
      cases l₁ <;> cases heq
  | cons a as ih =>
    by_cases pa : p a = true
    · rw [List.find?_cons_of_pos _ pa]
      constructor
      · intro h
        injection h with h
        subst h
        exact ⟨[], as, rfl, pa, by intro b hb; cases hb⟩
      · rintro ⟨l₁, l₂, heq, hx, hl₁⟩
        cases l₁ with
        | nil =>
          injection heq with h1 h2
          rw [h1]
        | cons b l₁' =>
          injection heq with h1 h2
          subst h1
          rw [hl₁ a (List.mem_cons_self a l₁')] at pa
          cases pa
    · rw [List.find?_cons_of_neg _ pa]
      rw [ih]
      constructor
      · rintro ⟨l₁, l₂, heq, hx, hl₁⟩
        refine ⟨a :: l₁, l₂, by rw [heq]; rfl, hx, ?_⟩
        intro b hb
        rcases List.mem_cons.mp hb with rfl | hb2
        · simpa using pa
        · exact hl₁ b hb2
      · rintro ⟨l₁, l₂, heq, hx, hl₁⟩
        cases l₁ with
        | nil =>
          injection heq with h1 h2
          subst h1
          exact absurd hx pa
        | cons b l₁' =>
          injection heq with h1 h2
          subst h1
          refine ⟨l₁', l₂, h2, hx, ?_⟩
          intro c hc
          exact hl₁ c (List.mem_cons_of_mem _ hc)

theorem mem_insertByStart {e x : GEvent} :
    ∀ {l : List GEvent}, x ∈ insertByStart e l ↔ x = e ∨ x ∈ l := by
  intro l
  induction l with
  | nil => simp [insertByStart]
  | cons a as ih =>
    by_cases h : startOf e ≤ startOf a
    · simp [insertByStart, h]
    · simp only [insertByStart, h, if_false, List.mem_cons, ih]
      tauto

theorem mem_sortByStart {x : GEvent} :
    ∀ {l : List GEvent}, x ∈ sortByStart l ↔ x ∈ l := by
  intro l
  induction l with
  | nil => simp [sortByStart]
  | cons a as ih =>
    show x ∈ insertByStart a (sortByStart as) ↔ _
    rw [mem_insertByStart]
    simp only [List.mem_cons]
    rw [ih]

/-- Claim C6. The Duplicate Resolver, given (title, startTime, endTime), lists
remote events only within a ±30-minute window around startTime; it returns
some gid exactly when the first listed event satisfying the acceptance
condition (summary equal to the title exactly or after stripping the reminder
marker, own start within ±5 minutes) has external id gid; and it returns none
exactly when no listed event satisfies the condition. -/
theorem duplicate_resolver_spec (remote : List GEvent) (title : String)
    (s endT : Int) :
    (∀ e ∈ listEventsAround remote s, ∃ x, e.startDT = some x ∧
        s - thirtyMinutesMs ≤ x ∧ x ≤ s + thirtyMinutesMs) ∧
    (∀ gid : Nat, findCalendarEventByTitleAndTime remote title s endT = some gid ↔
      ∃ l₁ e l₂, listEventsAround remote s = l₁ ++ e :: l₂ ∧ e.id = gid ∧
        ResolverAccepts title s e ∧ ∀ e' ∈ l₁, ¬ ResolverAccepts title s e') ∧
    (findCalendarEventByTitleAndTime remote title s endT = none ↔
      ∀ e ∈ listEventsAround remote s, ¬ ResolverAccepts title s e) := by
  refine ⟨?_, ?_, ?_⟩
  · intro e he
    have he2 : e ∈ sortByStart (remote.filter (fun e =>
        match e.startDT with
        | some x => decide (s - thirtyMinutesMs ≤ x) && decide (x ≤ s + thirtyMinutesMs)
        | none => false)) := List.mem_of_mem_take he
    rw [mem_sortByStart] at he2
    have hcond := List.of_mem_filter he2
    cases hst : e.startDT with
    | none => rw [hst] at hcond; cases hcond
    | some x =>
      rw [hst] at hcond
      simp only [Bool.and_eq_true, decide_eq_true_eq] at hcond
      exact ⟨x, rfl, hcond.1, hcond.2⟩
  · intro gid
    unfold findCalendarEventByTitleAndTime
    constructor
    · intro h
      rcases Option.map_eq_some'.mp h with ⟨e, hfind, hid⟩
      rcases find?_eq_some_split.mp hfind with ⟨l₁, l₂, heq, hpe, hl₁⟩
      refine ⟨l₁, e, l₂, heq, hid, (resolver_cond_iff title s e).mp hpe, ?_⟩
      intro e' he' hacc
      have := (resolver_cond_iff title s e').mpr hacc
      rw [hl₁ e' he'] at this
      cases this
    · rintro ⟨l₁, e, l₂, heq, hid, hacc, hl₁⟩
      have hfind : (listEventsAround remote s).find? (fun e =>
          match e.startDT with
          | none => false
          | some es =>
            !e.summary.isEmpty && titleMatches e.summary title &&
              decide ((es - s).natAbs ≤ 300000)) = some e := by
        rw [find?_eq_some_split]
        refine ⟨l₁, l₂, heq, (resolver_cond_iff title s e).mpr hacc, ?_⟩
        intro a ha
        by_cases hpa : (match a.startDT with
          | none => false
          | some es =>
            !a.summary.isEmpty && titleMatches a.summary title &&
              decide ((es - s).natAbs ≤ 300000)) = true
        · exact absurd ((resolver_cond_iff title s a).mp hpa) (hl₁ a ha)
        · simpa using hpa
      rw [hfind]
      simpa using hid
  · unfold findCalendarEventByTitleAndTime
    rw [Option.map_eq_none', List.find?_eq_none]
    constructor
    · intro h e he hacc
      have := h e he
      rw [(resolver_cond_iff title s e).mpr hacc] at this
      cases this rfl
    · intro h e he
      intro hpe
      exact h e he ((resolver_cond_iff title s e).mp hpe)

/-- Witness for C6 at a concrete listing: an exact-title event two minutes off
is accepted, so the resolver returns its id. -/
theorem duplicate_resolver_spec_witness :
    findCalendarEventByTitleAndTime
      [{ id := 7, summary := "Dentist", description := none, location := none,
         startDT := some 120000, endDT := some 1920000, updated := 5 }]
      "Dentist" 0 1800000 = some 7 := by
  apply (duplicate_resolver_spec _ "Dentist" 0 1800000).2.1 7 |>.mpr
  refine ⟨[], { id := 7, summary := "Dentist", description := none, location := none,
                startDT := some 120000, endDT := some 1920000, updated := 5 }, [],
          by decide, rfl, ?_, ?_⟩
  · exact ⟨⟨120000, rfl, by decide⟩, by decide, Or.inl rfl⟩
  · intro e' he'; cases he'

/-! ## Items, the world state, and cross-service operations

The two services share one MongoDB: item-service owns the items collection,
integration-service owns SyncState and also reads/writes items directly in
the webhook path. Cross-service HTTP calls (updateItemFromCalendar,
createItemFromCalendar, syncEventToCalendar, syncEventUpdateToCalendar) are
inlined as calls to the model of the target route, since those routes are in
the repository too. The model is single-user: userId filters are dropped. -/

inductive ItemType where
  | action
  | reminder
  | event
deriving DecidableEq, Repr

structure Item where
  id : Nat
  type : ItemType
  title : String
  description : Option String
  location : Option String
  startDate : Option Int
  endDate : Option Int
  reminderTime : Option Int
  googleCalendarId : Option Nat
  completed : Bool
deriving DecidableEq, Repr

structure World where
  remote : List GEvent
  items : List Item
  ledger : List SyncRec
  nextGId : Nat
  nextItemId : Nat
deriving DecidableEq, Repr

structure Stats where
  g2aCreated : Nat
  g2aUpdated : Nat
  g2aDeleted : Nat
  a2gCreated : Nat
  a2gUpdated : Nat
deriving DecidableEq, Repr

def Stats.zero : Stats := ⟨0, 0, 0, 0, 0⟩

def isSyncableType (t : ItemType) : Bool := t == .event || t == .reminder

/-- Item.findOne by googleCalendarId. -/
def findItemByG (items : List Item) (g : Nat) : Option Item :=
  items.find? (fun it => it.googleCalendarId == some g)

/-- Item.findById. -/
def findItemById (items : List Item) (iid : Nat) : Option Item :=
  items.find? (fun it => it.id == iid)

def nearTime (o : Option Int) (s : Int) : Bool :=
  match o with
  | some x => decide (s - 300000 ≤ x) && decide (x ≤ s + 300000)
  | none => false

/-- The duplicate lookup by title and time shared by the webhook pipeline and
the full sync: exact same title, type event or reminder, and startDate or
reminderTime within ±5 minutes of the remote start. -/
def findItemByTitleTime (items : List Item) (title : String) (s : Int) : Option Item :=
  items.find? (fun it =>
    isSyncableType it.type && it.title == title &&
      (nearTime it.startDate s || nearTime it.reminderTime s))

def inRange (winS winE : Int) (o : Option Int) : Bool :=
  match o with
  | some x => decide (winS ≤ x) && decide (x ≤ winE)
  | none => false

/-- The window condition of the item queries: startDate in range or
reminderTime in range. -/
def itemInWindow (winS winE : Int) (it : Item) : Bool :=
  inRange winS winE it.startDate || inRange winS winE it.reminderTime

/-- Item.findByIdAndUpdate setting googleCalendarId (ids are the primary
key, so at most one document changes). -/
def setItemGId (items : List Item) (iid g : Nat) : List Item :=
  items.map (fun it => if it.id == iid then { it with googleCalendarId := some g } else it)

/-- A PATCH /items/:id body (the fields the sync flows send). -/
structure ItemPatch where
  title : Option String
  description : Option String
  location : Option String
  startDate : Option Int
  endDate : Option Int
  googleCalendarId : Option Nat
deriving DecidableEq, Repr

def ItemPatch.empty : ItemPatch := ⟨none, none, none, none, none, none⟩

/-- Mongo $set of the provided fields only. -/
def applyItemPatch (p : ItemPatch) (it : Item) : Item :=
  { it with
    title := p.title.getD it.title
    description := match p.description with | some d => some d | none => it.description
    location := match p.location with | some d => some d | none => it.location
    startDate := match p.startDate with | some d => some d | none => it.startDate
    endDate := match p.endDate with | some d => some d | none => it.endDate
    googleCalendarId := match p.googleCalendarId with
      | some g => some g
      | none => it.googleCalendarId }

/-- A POST /sync/calendar/update body. -/
structure EventPatch where
  title : Option String
  description : Option String
  location : Option String
  startDate : Option Int
  endDate : Option Int
deriving DecidableEq, Repr

/-- calendarService.updateCalendarEvent: fetch the event, merge (a missing or
empty title keeps the old summary; description and location only replace when
provided; dates only when provided), push; the provider stamps updated. -/
def mergeGEvent (p : EventPatch) (now : Int) (e : GEvent) : GEvent :=
  { e with
    summary := match p.title with
      | some t => if t.isEmpty then e.summary else t
      | none => e.summary
    description := match p.description with | some d => some d | none => e.description
    location := match p.location with | some d => some d | none => e.location
    startDT := match p.startDate with | some d => some d | none => e.startDT
    endDT := match p.endDate with | some d => some d | none => e.endDT
    updated := now }

def updateRemoteEvent (remote : List GEvent) (g : Nat) (p : EventPatch)
    (now : Int) : List GEvent :=
  remote.map (fun e => if e.id == g then mergeGEvent p now e else e)

/-- calendarService.createCalendarEvent: events.insert with summary := title
and description / location defaulted to the empty string; the provider
returns a fresh id and stamps updated. -/
def createRemoteEvent (w : World) (title : String) (desc loc : Option String)
    (s eTime now : Int) : World × Nat :=
  ({ w with
      remote := w.remote ++
        [{ id := w.nextGId, summary := title, description := some (desc.getD ""),
           location := some (loc.getD ""), startDT := some s, endDT := some eTime,
           updated := now }],
      nextGId := w.nextGId + 1 }, w.nextGId)

def getRemoteEvent (remote : List GEvent) (g : Nat) : Option GEvent :=
  remote.find? (fun e => e.id == g)

/-- item-service PATCH /items/:id (items.routes.ts lines 232-304): update the
item, then, best effort, echo the change to the provider — for an event with
a googleCalendarId via POST /sync/calendar/update (which also calls
markAppModified), for a reminder with a googleCalendarId and a reminderTime
via the reminder projection (bell marker title, reminderTime + 15 minutes). -/
def patchItem (now : Int) (iid : Nat) (p : ItemPatch) (w : World) : World :=
  match findItemById w.items iid with
  | none => w
  | some it0 =>
    let it := applyItemPatch p it0
    let w1 := { w with items := w.items.map (fun x =>
      if x.id == iid then applyItemPatch p x else x) }
    if it.type == ItemType.event then
      match it.googleCalendarId with
      | some g =>
        let ep : EventPatch :=
          { title := p.title, description := p.description, location := p.location,
            startDate := p.startDate, endDate := p.endDate }
        let w2 := { w1 with remote := updateRemoteEvent w1.remote g ep now }
        { w2 with ledger := markAppModified iid g now w2.ledger }
      | none => w1
    else if it.type == ItemType.reminder then
      match it.googleCalendarId, it.reminderTime with
      | some g, some rt =>
        let pushTitle := bellMark ++ (match p.title with
          | some t => if t.isEmpty then it.title else t
          | none => it.title)
        let ep : EventPatch :=
          { title := some pushTitle,
            description := match p.description with
              | some d => some d
              | none => it.description,
            location := match p.location with
              | some d => some d
              | none => it.location,
            startDate := some rt, endDate := some (rt + fifteenMinutesMs) }
        let w2 := { w1 with remote := updateRemoteEvent w1.remote g ep now }
        { w2 with ledger := markAppModified iid g now w2.ledger }
      | _, _ => w1
    else w1

/-- integration-service POST /sync/calendar/create (webhooks.routes.ts lines
371-458): reject an empty title (which the caller swallows as a failed,
non-fatal sync); resolve a duplicate by title and time; on a hit, link the
item through PATCH /items/:id, fetch the event and markGoogleModified; on a
miss, create the remote event and markAppModified. Returns the external id. -/
def syncCalendarCreate (now : Int) (iid : Nat) (title : String)
    (desc loc : Option String) (s eTime : Int) (w : World) : World × Option Nat :=
  if title.isEmpty then (w, none)
  else
    match findCalendarEventByTitleAndTime w.remote title s eTime with
    | some g =>
      let w1 := patchItem now iid { ItemPatch.empty with googleCalendarId := some g } w
      let w2 := match getRemoteEvent w1.remote g with
        | some ev => { w1 with ledger := markGoogleModified iid g ev.updated now w1.ledger }
        | none => w1
      (w2, some g)
    | none =>
      let r := createRemoteEvent w title desc loc s eTime now
      ({ r.1 with ledger := markAppModified iid r.2 now r.1.ledger }, some r.2)

/-- item-service POST /items for an event document carrying a
googleCalendarId — the request createItemFromCalendar sends. The route
creates the item (completed defaults to false), and since the type is event
with both dates present it then calls syncEventToCalendar, i.e. POST
/sync/calendar/create, and stores the returned external id on the item. -/
def postItemFromCalendar (now : Int) (g : Nat) (title : String)
    (desc loc : Option String) (s eTime : Int) (w : World) : World × Nat :=
  let iid := w.nextItemId
  let newItem : Item :=
    { id := iid, type := .event, title := title, description := desc, location := loc,
      startDate := some s, endDate := some eTime, reminderTime := none,
      googleCalendarId := some g, completed := false }
  let w1 := { w with items := w.items ++ [newItem], nextItemId := iid + 1 }
  let r := syncCalendarCreate now iid title desc loc s eTime w1
  match r.2 with
  | some gr => ({ r.1 with items := setItemGId r.1.items iid gr }, iid)
  | none => (r.1, iid)

/-! ## The full sync (integration-service POST /sync/full) -/

/-- A provider listing over a window keyed on start dateTimes (events without
a start dateTime are immaterial here: the pipelines skip them). -/
def listRemote (winS winE : Int) (remote : List GEvent) : List GEvent :=
  remote.filter (fun e =>
    match e.startDT with
    | some x => decide (winS ≤ x) && decide (x ≤ winE)
    | none => false)

def validEvent (e : GEvent) : Bool := e.startDT.isSome && e.endDT.isSome

/-- The googleCalendarIds set the full sync accumulates: ids of listed events
that pass the dateTime validity check. -/
def listedValidIds (listing : List GEvent) : List Nat :=
  (listing.filter validEvent).map (·.id)

/-- The inline shouldUpdate check of the full sync (lines 651-653):
no SyncState row, or Google's timestamp strictly newer than lastAppModified. -/
def fullSyncShouldUpdate (l : List SyncRec) (g : Nat) (t : Int) : Bool :=
  match findRec l g with
  | none => true
  | some r => decide (r.lastAppModified < t)

/-- JS x || undefined on an optional string. -/
def optNE (o : Option String) : Option String :=
  match o with
  | some d => if d.isEmpty then none else some d
  | none => none

/-- JS googleEvent.summary || Untitled Event. -/
def eventTitleOf (e : GEvent) : String :=
  if e.summary.isEmpty then "Untitled Event" else e.summary

/-- The PATCH body updateItemFromCalendar sends for a google event. -/
def patchOfEvent (e : GEvent) (s eTime : Int) : ItemPatch :=
  { title := some (eventTitleOf e), description := optNE e.description,
    location := optNE e.location, startDate := some s, endDate := some eTime,
    googleCalendarId := none }

/-- Step 2 of the full sync, one google event (lines 608-746): skip events
without both dateTimes; resolve the local item by googleCalendarId, else by
title and time (linking it); if found and shouldUpdate, push the remote
fields into the item (updateItemFromCalendar → PATCH /items/:id, which echoes
back to the provider) and markGoogleModified; if not found, create the item
via createItemFromCalendar (POST /items, which itself syncs), verify or fix
its googleCalendarId, and markGoogleModified. The source's re-checks for
concurrent duplicates (its finalDuplicateCheck) repeat queries that cannot
change between two adjacent lines of this sequential model, so they are the
same lookups folded together. -/
def processGoogleEvent (now : Int) (e : GEvent) (acc : World × Stats) : World × Stats :=
  let w := acc.1
  let st := acc.2
  match e.startDT, e.endDT with
  | some es, some ee =>
    match findItemByG w.items e.id with
    | some it =>
      if fullSyncShouldUpdate w.ledger e.id e.updated then
        let w2 := patchItem now it.id (patchOfEvent e es ee) w
        let w3 := { w2 with ledger := markGoogleModified it.id e.id e.updated now w2.ledger }
        (w3, { st with g2aUpdated := st.g2aUpdated + 1 })
      else (w, st)
    | none =>
      match findItemByTitleTime w.items (eventTitleOf e) es with
      | some it =>
        let w1 := { w with items := setItemGId w.items it.id e.id }
        if fullSyncShouldUpdate w1.ledger e.id e.updated then
          let w2 := patchItem now it.id (patchOfEvent e es ee) w1
          let w3 := { w2 with ledger := markGoogleModified it.id e.id e.updated now w2.ledger }
          (w3, { st with g2aUpdated := st.g2aUpdated + 1 })
        else (w1, st)
      | none =>
        let r := postItemFromCalendar now e.id (eventTitleOf e)
          (optNE e.description) (optNE e.location) es ee w
        let w3 := match findItemById r.1.items r.2 with
          | some itc =>
            if itc.googleCalendarId == some e.id then r.1
            else patchItem now r.2 { ItemPatch.empty with googleCalendarId := some e.id } r.1
          | none => r.1
        let w4 := { w3 with ledger := markGoogleModified r.2 e.id e.updated now w3.ledger }
        (w4, { st with g2aCreated := st.g2aCreated + 1 })
  | _, _ => (w, st)

/-- The deletion sweeps' item query: syncable type, googleCalendarId present,
startDate or reminderTime in the window. -/
def sweepCandidates (winS winE : Int) (items : List Item) : List Item :=
  items.filter (fun it =>
    isSyncableType it.type && it.googleCalendarId.isSome && itemInWindow winS winE it)

/-- The deletion sweep shared by the webhook pipeline (lines 314-333) and the
full sync Step 2.5 (lines 748-769): for each queried item whose
googleCalendarId is not among the listed ids, Item.findByIdAndDelete plus
SyncState.deleteOne by itemId, counting deletions. -/
def sweepStep (listedIds : List Nat) (acc : List Item × List SyncRec × Nat)
    (it : Item) : List Item × List SyncRec × Nat :=
  match it.googleCalendarId with
  | some g =>
    if listedIds.contains g then acc
    else (acc.1.filter (fun x => x.id != it.id),
          acc.2.1.eraseP (fun r => r.itemId == it.id),
          acc.2.2 + 1)
  | none => acc

def runSweep (listedIds : List Nat) (cands : List Item) (items : List Item)
    (ledger : List SyncRec) : List Item × List SyncRec × Nat :=
  cands.foldl (sweepStep listedIds) (items, ledger, 0)

/-- Step 3's item query (lines 774-784): syncable type, no googleCalendarId
stored, startDate or reminderTime in the window. -/
def step3Candidates (winS winE : Int) (items : List Item) : List Item :=
  items.filter (fun it =>
    isSyncableType it.type && it.googleCalendarId.isNone && itemInWindow winS winE it)

def lookupGMap (gmap : List GEvent) (g : Nat) : Option GEvent :=
  gmap.find? (fun e => e.id == g)

/-- Step 3 of the full sync, one app item without a googleCalendarId (lines
788-955). Events: duplicate-resolve against the provider; on a hit link and
markGoogleModified (updated from the step-1 map, else a live fetch) and count
an update; on a miss create the remote event — swapping reversed dates and
widening equal dates by an hour — link, markAppModified, count a create.
Reminders: only when startDate is present; project to
startDate + 15 minutes under the bell-marker title; on a resolver hit link
and markGoogleModified (step-1 map only); on a miss create, link,
markAppModified. -/
def processAppItem (now : Int) (gmap : List GEvent) (acc : World × Stats)
    (it : Item) : World × Stats :=
  let w := acc.1
  let st := acc.2
  if it.type == ItemType.event then
    match it.startDate, it.endDate with
    | some s, some en =>
      match findCalendarEventByTitleAndTime w.remote it.title s en with
      | some g =>
        let w1 := { w with items := setItemGId w.items it.id g }
        let w2 := match lookupGMap gmap g with
          | some ev => { w1 with ledger := markGoogleModified it.id g ev.updated now w1.ledger }
          | none =>
            match getRemoteEvent w1.remote g with
            | some ev => { w1 with ledger := markGoogleModified it.id g ev.updated now w1.ledger }
            | none => w1
        (w2, { st with a2gUpdated := st.a2gUpdated + 1 })
      | none =>
        let fs := if en ≤ s then en else s
        let fe := if en ≤ s then (if s == en then en + oneHourMs else s) else en
        let r := createRemoteEvent w it.title it.description it.location fs fe now
        let w2 := { r.1 with items := setItemGId r.1.items it.id r.2 }
        let w3 := { w2 with ledger := markAppModified it.id r.2 now w2.ledger }
        (w3, { st with a2gCreated := st.a2gCreated + 1 })
    | _, _ => (w, st)
  else if it.type == ItemType.reminder then
    match it.startDate with
    | some s =>
      let en := s + fifteenMinutesMs
      let rtitle := bellMark ++ it.title
      match findCalendarEventByTitleAndTime w.remote rtitle s en with
      | some g =>
        let w1 := { w with items := setItemGId w.items it.id g }
        let w2 := match lookupGMap gmap g with
          | some ev => { w1 with ledger := markGoogleModified it.id g ev.updated now w1.ledger }
          | none => w1
        (w2, { st with a2gUpdated := st.a2gUpdated + 1 })
      | none =>
        let r := createRemoteEvent w rtitle it.description it.location s en now
        let w2 := { r.1 with items := setItemGId r.1.items it.id r.2 }
        let w3 := { w2 with ledger := markAppModified it.id r.2 now w2.ledger }
        (w3, { st with a2gCreated := st.a2gCreated + 1 })
    | none => (w, st)
  else (w, st)

/-- integration-service POST /sync/full: list the window (maxResults 2500,
far beyond this model's worlds), sweep google → app, delete local items whose
linked event disappeared from the listing, then push unlinked app items
app → google, returning the counters. -/
def fullSync (now winS winE : Int) (w : World) : World × Stats :=
  let listing := listRemote winS winE w.remote
  let gIds := listedValidIds listing
  let gmap := listing.filter validEvent
  let r1 := listing.foldl (fun acc e => processGoogleEvent now e acc) (w, Stats.zero)
  let cands := sweepCandidates winS winE r1.1.items
  let r2 := runSweep gIds cands r1.1.items r1.1.ledger
  let w2 := { r1.1 with items := r2.1, ledger := r2.2.1 }
  let st2 := { r1.2 with g2aDeleted := r1.2.g2aDeleted + r2.2.2 }
  (step3Candidates winS winE w2.items).foldl (processAppItem now gmap) (w2, st2)

/-! ## The webhook pipeline's listing and deletion phase -/

def insertByUpdated (e : GEvent) : List GEvent → List GEvent
  | [] => [e]
  | x :: xs => if e.updated ≤ x.updated then e :: x :: xs else x :: insertByUpdated e xs

def sortByUpdated (l : List GEvent) : List GEvent := l.foldr insertByUpdated []

/-- The webhook pipeline's capped listing (lines 120-131): events from one
hour ago to 24 hours ahead, ordered by update time, maxResults 50. -/
def webhookListing (now : Int) (remote : List GEvent) : List GEvent :=
  (sortByUpdated (listRemote (now - oneHourMs) (now + oneDayMs) remote)).take 50

/-- The webhook pipeline's deletion phase (lines 314-333): local items in the
same window whose googleCalendarId is not among the capped listing's ids are
deleted together with their SyncState rows. -/
def webhookDeletionSweep (now : Int) (w : World) : World :=
  let ids := (webhookListing now w.remote).map (·.id)
  let cands := sweepCandidates (now - oneHourMs) (now + oneDayMs) w.items
  let r := runSweep ids cands w.items w.ledger
  { w with items := r.1, ledger := r.2.1 }

/-- The webhook pipeline's per-event step (lines 137-309): gate on
shouldProcessWebhook (skip when the ledger suppresses the event); resolve the
item by googleCalendarId, else — only when the event has both dateTimes — by
title and time, linking a hit to the event; when an item was found either
way, push the remote fields into it ($set with an undefined value drops the
key, so title := summary verbatim with an empty fallback, description and
location only when present, dates only when present) and markGoogleModified;
with no item found and both dateTimes present, upsert a fresh document with
type event, the summary verbatim as title (Untitled Event fallback),
completed := false, linked to the event, then markGoogleModified. The
source's re-checks inside the create branch (its duplicateCheck and
duplicateByTitleAndTime) repeat queries that cannot change between two
adjacent lines of this sequential model, so they are the same lookups folded
together. -/
def webhookUpsertFromEvent (now : Int) (e : GEvent) (w : World) : World :=
  if shouldProcessWebhookL w.ledger e.id e.updated then
    match findItemByG w.items e.id with
    | some it =>
      { w with
        items := w.items.map (fun x =>
          if x.id == it.id then
            { x with
              title := e.summary,
              description := match e.description with
                | some d => some d
                | none => x.description,
              location := match e.location with
                | some d => some d
                | none => x.location,
              startDate := match e.startDT with
                | some s => some s
                | none => x.startDate,
              endDate := match e.endDT with
                | some en => some en
                | none => x.endDate }
          else x),
        ledger := markGoogleModified it.id e.id e.updated now w.ledger }
    | none =>
      match e.startDT, e.endDT with
      | some s, some en =>
        match findItemByTitleTime w.items (eventTitleOf e) s with
        | some dup =>
          { w with
            items := w.items.map (fun x =>
              if x.id == dup.id then
                { x with
                  googleCalendarId := some e.id,
                  title := e.summary,
                  description := match e.description with
                    | some d => some d
                    | none => x.description,
                  location := match e.location with
                    | some d => some d
                    | none => x.location,
                  startDate := some s, endDate := some en }
              else x),
            ledger := markGoogleModified dup.id e.id e.updated now w.ledger }
        | none =>
          let newItem : Item :=
            { id := w.nextItemId, type := .event, title := eventTitleOf e,
              description := e.description, location := e.location,
              startDate := some s, endDate := some en, reminderTime := none,
              googleCalendarId := some e.id, completed := false }
          { w with items := w.items ++ [newItem], nextItemId := w.nextItemId + 1,
                   ledger := markGoogleModified newItem.id e.id e.updated now w.ledger }
      | _, _ => w
  else w

/-! ## Claims C5 and C10: the deletion sweeps -/

theorem eraseP_key_all {κ : α → Nat} {k : Nat} :
    ∀ {l : List α}, (l.map κ).Nodup →
      ∀ r ∈ l.eraseP (fun x => κ x == k), κ r ≠ k := by
  intro l
  induction l with
  | nil => intro _ r hr; cases hr
  | cons a as ih =>
    intro hnd r hr
    rw [List.map_cons, List.nodup_cons] at hnd
    by_cases ha : (κ a == k) = true
    · have hera : List.eraseP (fun x => κ x == k) (a :: as) = as :=
        List.eraseP_cons_of_pos ha
      rw [hera] at hr
      intro hrk
      apply hnd.1
      have hak : κ a = k := by simpa using ha
      rw [hak, ← hrk]
      exact List.mem_map.mpr ⟨r, hr, rfl⟩
    · have hera : List.eraseP (fun x => κ x == k) (a :: as) =
          a :: List.eraseP (fun x => κ x == k) as :=
        List.eraseP_cons_of_neg ha
      rw [hera] at hr
      rcases List.mem_cons.mp hr with rfl | hr2
      · simpa using ha
      · exact ih hnd.2 r hr2

theorem sweepStep_mem_items {ids : List Nat} {acc : List Item × List SyncRec × Nat}
    {it x : Item} (h : x ∈ (sweepStep ids acc it).1) : x ∈ acc.1 := by
  cases hg : it.googleCalendarId with
  | none => simp only [sweepStep, hg] at h; exact h
  | some g =>
    simp only [sweepStep, hg] at h
    by_cases hc : ids.contains g = true
    · rw [if_pos hc] at h; exact h
    · rw [if_neg hc] at h
      exact (List.mem_filter.mp h).1

theorem sweepStep_mem_ledger {ids : List Nat} {acc : List Item × List SyncRec × Nat}
    {it : Item} {r : SyncRec} (h : r ∈ (sweepStep ids acc it).2.1) : r ∈ acc.2.1 := by
  cases hg : it.googleCalendarId with
  | none => simp only [sweepStep, hg] at h; exact h
  | some g =>
    simp only [sweepStep, hg] at h
    by_cases hc : ids.contains g = true
    · rw [if_pos hc] at h; exact h
    · rw [if_neg hc] at h
      exact List.Sublist.subset (List.eraseP_sublist _) h

theorem foldl_sweep_mem_items {ids : List Nat} :
    ∀ (cands : List Item) (acc : List Item × List SyncRec × Nat) (x : Item),
      x ∈ (cands.foldl (sweepStep ids) acc).1 → x ∈ acc.1 := by
  intro cands
  induction cands with
  | nil => intro acc x h; exact h
  | cons c cs ih =>
    intro acc x h
    rw [List.foldl_cons] at h
    exact sweepStep_mem_items (ih (sweepStep ids acc c) x h)

theorem foldl_sweep_mem_ledger {ids : List Nat} :
    ∀ (cands : List Item) (acc : List Item × List SyncRec × Nat) (r : SyncRec),
      r ∈ (cands.foldl (sweepStep ids) acc).2.1 → r ∈ acc.2.1 := by
  intro cands
  induction cands with
  | nil => intro acc r h; exact h
  | cons c cs ih =>
    intro acc r h
    rw [List.foldl_cons] at h
    exact sweepStep_mem_ledger (ih (sweepStep ids acc c) r h)

theorem sweepStep_nodup {ids : List Nat} {acc : List Item × List SyncRec × Nat}
    {it : Item} (h : (acc.2.1.map (·.itemId)).Nodup) :
    ((sweepStep ids acc it).2.1.map (·.itemId)).Nodup := by
  cases hg : it.googleCalendarId with
  | none => simp only [sweepStep, hg]; exact h
  | some g =>
    simp only [sweepStep, hg]
    by_cases hc : ids.contains g = true
    · rw [if_pos hc]; exact h
    · rw [if_neg hc]
      exact List.Nodup.sublist (List.Sublist.map _ (List.eraseP_sublist _)) h

theorem foldl_sweep_kills {ids : List Nat} :
    ∀ (cands : List Item) (acc : List Item × List SyncRec × Nat) (it : Item) (g : Nat),
      it ∈ cands → it.googleCalendarId = some g → g ∉ ids →
      (acc.2.1.map (·.itemId)).Nodup →
      (∀ x ∈ (cands.foldl (sweepStep ids) acc).1, x.id ≠ it.id) ∧
      (∀ r ∈ (cands.foldl (sweepStep ids) acc).2.1, r.itemId ≠ it.id) := by
  intro cands
  induction cands with
  | nil => intro acc it g hmem; cases hmem
  | cons c cs ih =>
    intro acc it g hmem hgid hnotin hnd
    rcases List.mem_cons.mp hmem with rfl | hmem2
    · have hcont : ids.contains g = false := by
        cases hcc : ids.contains g with
        | false => rfl
        | true =>
          exact absurd (by simpa using hcc : g ∈ ids) hnotin
      have hstep : sweepStep ids acc it =
          (acc.1.filter (fun x => x.id != it.id),
           acc.2.1.eraseP (fun r => r.itemId == it.id), acc.2.2 + 1) := by
        simp only [sweepStep, hgid, hcont]
        simp
      constructor
      · intro x hx
        rw [List.foldl_cons] at hx
        have hx2 := foldl_sweep_mem_items cs _ x hx
        rw [hstep] at hx2
        have := (List.mem_filter.mp hx2).2
        simpa using this
      · intro r hr
        rw [List.foldl_cons] at hr
        have hr2 := foldl_sweep_mem_ledger cs _ r hr
        rw [hstep] at hr2
        exact eraseP_key_all hnd r hr2
    · rw [List.foldl_cons]
      exact ih (sweepStep ids acc c) it g hmem2 hgid hnotin (sweepStep_nodup hnd)

/-- Membership in the sweep's own query. -/
theorem mem_sweepCandidates {winS winE : Int} {items : List Item} {it : Item} {g : Nat}
    (hmem : it ∈ items) (hsync : isSyncableType it.type = true)
    (hgid : it.googleCalendarId = some g) (hwin : itemInWindow winS winE it = true) :
    it ∈ sweepCandidates winS winE items := by
  unfold sweepCandidates
  rw [List.mem_filter]
  exact ⟨hmem, by rw [hsync, hgid, hwin]; rfl⟩

/-- Shared core of C5 and C10: an in-window, linked, syncable item whose
external id is not among the listed ids is removed by the sweep, together
with every ledger row bearing its itemId. -/
theorem runSweep_removes {listedIds : List Nat} {winS winE : Int}
    {items : List Item} {ledger : List SyncRec} {it : Item} {g : Nat}
    (hmem : it ∈ items) (hsync : isSyncableType it.type = true)
    (hgid : it.googleCalendarId = some g) (hwin : itemInWindow winS winE it = true)
    (hnotin : g ∉ listedIds) (hnd : (ledger.map (·.itemId)).Nodup) :
    (∀ x ∈ (runSweep listedIds (sweepCandidates winS winE items) items ledger).1,
       x.id ≠ it.id) ∧
    (∀ r ∈ (runSweep listedIds (sweepCandidates winS winE items) items ledger).2.1,
       r.itemId ≠ it.id) :=
  foldl_sweep_kills (sweepCandidates winS winE items) (items, ledger, 0) it g
    (mem_sweepCandidates hmem hsync hgid hwin) hgid hnotin hnd

/-- Claim C5. In the deletion phase shared by the webhook pipeline and the
full sync (runSweep over the sweep query), any swept item whose linked
externalEventId is absent from the remote listing is deleted locally and its
SyncRecord is removed in the same operation, leaving no ledger row whose
itemId refers to the deleted item; the second conjunct instantiates this for
the webhook pipeline's deletion phase. -/
theorem deletion_propagation_no_orphans :
    (∀ (listedIds : List Nat) (winS winE : Int) (items : List Item)
       (ledger : List SyncRec) (it : Item) (g : Nat),
       it ∈ items → isSyncableType it.type = true → it.googleCalendarId = some g →
       itemInWindow winS winE it = true → g ∉ listedIds →
       (ledger.map (·.itemId)).Nodup →
       (∀ x ∈ (runSweep listedIds (sweepCandidates winS winE items) items ledger).1,
          x.id ≠ it.id) ∧
       (∀ r ∈ (runSweep listedIds (sweepCandidates winS winE items) items ledger).2.1,
          r.itemId ≠ it.id)) ∧
    (∀ (now : Int) (w : World) (it : Item) (g : Nat),
       it ∈ w.items → isSyncableType it.type = true → it.googleCalendarId = some g →
       itemInWindow (now - oneHourMs) (now + oneDayMs) it = true →
       g ∉ (webhookListing now w.remote).map (·.id) →
       (w.ledger.map (·.itemId)).Nodup →
       (∀ x ∈ (webhookDeletionSweep now w).items, x.id ≠ it.id) ∧
       (∀ r ∈ (webhookDeletionSweep now w).ledger, r.itemId ≠ it.id)) := by
  constructor
  · intro listedIds winS winE items ledger it g hmem hsync hgid hwin hnotin hnd
    exact runSweep_removes hmem hsync hgid hwin hnotin hnd
  · intro now w it g hmem hsync hgid hwin hnotin hnd
    exact runSweep_removes hmem hsync hgid hwin hnotin hnd

def sweepWitnessItem : Item :=
  { id := 1, type := .event, title := "Gone", description := none, location := none,
    startDate := some 1000, endDate := some 2000, reminderTime := none,
    googleCalendarId := some 5, completed := false }

def sweepWitnessRec : SyncRec :=
  { itemId := 1, googleCalendarId := 5, lastAppModified := 10,
    lastGoogleModified := some 9, syncing := false }

def sweepWitnessWorld : World :=
  { remote := [], items := [sweepWitnessItem], ledger := [sweepWitnessRec],
    nextGId := 100, nextItemId := 2 }

/-- Witness for C5: in a world with one linked item and an empty listing, the
webhook sweep removes both the item and its ledger row. -/
theorem deletion_propagation_no_orphans_witness :
    sweepWitnessItem ∉ (webhookDeletionSweep 0 sweepWitnessWorld).items ∧
    sweepWitnessRec ∉ (webhookDeletionSweep 0 sweepWitnessWorld).ledger := by
  have h := deletion_propagation_no_orphans.2 0 sweepWitnessWorld sweepWitnessItem 5
    (by decide) (by decide) (by decide) (by decide) (by decide) (by decide)
  exact ⟨fun hmem => h.1 sweepWitnessItem hmem rfl, fun hmem => h.2 sweepWitnessRec hmem rfl⟩

/-- Claim C10. The webhook pipeline's deletion sweep judges remote existence
against a listing capped at 50 results over the window from one hour ago to
24 hours ahead: the capped listing never exceeds 50 events, and a local item
in that window whose googleCalendarId is not among the at-most-50 listed ids
is deleted locally even when an event with that id still exists remotely. -/
theorem webhook_capped_listing_deletion :
    (∀ (now : Int) (remote : List GEvent), (webhookListing now remote).length ≤ 50) ∧
    (∀ (now : Int) (w : World) (it : Item) (g : Nat),
       it ∈ w.items → isSyncableType it.type = true → it.googleCalendarId = some g →
       itemInWindow (now - oneHourMs) (now + oneDayMs) it = true →
       g ∉ (webhookListing now w.remote).map (·.id) →
       (∃ e ∈ w.remote, e.id = g) →
       (w.ledger.map (·.itemId)).Nodup →
       ∀ x ∈ (webhookDeletionSweep now w).items, x.id ≠ it.id) := by
  constructor
  · intro now remote
    unfold webhookListing
    rw [List.length_take]
    exact min_le_left _ _
  · intro now w it g hmem hsync hgid hwin hnotin _ hnd
    exact (runSweep_removes hmem hsync hgid hwin hnotin hnd).1

/-- A remote calendar of 51 events, all inside the webhook window, updated
timestamps ascending with the id. -/
def cappedRemote : List GEvent :=
  (List.range 51).map (fun k =>
    { id := k, summary := "E", description := none, location := none,
      startDT := some (1000 + k), endDT := some (2000 + k), updated := (k : Int) })

def cappedWitnessItem : Item :=
  { id := 1, type := .event, title := "E", description := none, location := none,
    startDate := some 1050, endDate := some 2050, reminderTime := none,
    googleCalendarId := some 50, completed := false }

def cappedWitnessWorld : World :=
  { remote := cappedRemote, items := [cappedWitnessItem],
    ledger := [], nextGId := 100, nextItemId := 2 }

/-- Witness for C10: with 51 remote events the cap drops the latest-updated
one; the item linked to it is deleted although the event exists remotely. -/
theorem webhook_capped_listing_deletion_witness :
    cappedWitnessItem ∉ (webhookDeletionSweep 0 cappedWitnessWorld).items := by
  intro hmem
  exact webhook_capped_listing_deletion.2 0 cappedWitnessWorld cappedWitnessItem 50
    (by decide) (by decide) (by decide) (by decide) (by decide)
    ⟨{ id := 50, summary := "E", description := none, location := none,
       startDT := some 1050, endDT := some 2050, updated := 50 }, by decide, rfl⟩
    (by decide) cappedWitnessItem hmem rfl

/-! ## Claim C8: the duplicate resolver fails closed -/

def emptyWorld : World :=
  { remote := [], items := [], ledger := [], nextGId := 0, nextItemId := 0 }

/-- Claim C8. Unlike the ledger lookup (which fails open), the Duplicate
Resolver fails closed: on any error while listing remote events it returns
none, and a resolver miss makes POST /sync/calendar/create take the creation
branch — a fresh remote event is created (remote grows by one, the fresh id
is returned) instead of linking an existing one. -/
theorem resolver_fails_closed :
    (∀ (title : String) (s eTime : Int),
       findCalendarEventByTitleAndTimeE (.error ()) title s eTime = none) ∧
    (∀ (now : Int) (iid : Nat) (title : String) (desc loc : Option String)
       (s eTime : Int) (w : World), title ≠ "" →
       findCalendarEventByTitleAndTime w.remote title s eTime = none →
       (syncCalendarCreate now iid title desc loc s eTime w).2 = some w.nextGId ∧
       (syncCalendarCreate now iid title desc loc s eTime w).1.remote.length =
         w.remote.length + 1) := by
  constructor
  · intro title s eTime
    rfl
  · intro now iid title desc loc s eTime w htitle hres
    have hne : title.isEmpty = false := by
      cases hie : title.isEmpty with
      | false => rfl
      | true => exact absurd ((summary_isEmpty_iff title).mp hie) htitle
    unfold syncCalendarCreate
    rw [hne]
    simp only [Bool.false_eq_true, if_false, hres]
    constructor
    · rfl
    · show (w.remote ++ [_]).length = w.remote.length + 1
      rw [List.length_append]
      rfl

/-- Witness for C8 at a concrete world: the creation branch fires. -/
theorem resolver_fails_closed_witness :
    (syncCalendarCreate 5 1 "T" none none 10 20 emptyWorld).2 = some 0 ∧
    (syncCalendarCreate 5 1 "T" none none 10 20 emptyWorld).1.remote.length = 1 :=
  resolver_fails_closed.2 5 1 "T" none none 10 20 emptyWorld (by decide) (by rfl)

/-! ## Claim C9: remote-to-local creation always yields uncompleted events -/

/-- The identity-relevant core of an item: id, type, completed, title. -/
def coreOf (it : Item) : Nat × ItemType × Bool × String :=
  (it.id, it.type, it.completed, it.title)

theorem coreOf_applyItemPatch_of_title_none {p : ItemPatch} (hp : p.title = none)
    (x : Item) : coreOf (applyItemPatch p x) = coreOf x := by
  unfold coreOf applyItemPatch
  rw [hp]
  rfl

theorem exists_core_map {items : List Item} {f : Item → Item}
    {c : Nat × ItemType × Bool × String}
    (hf : ∀ x ∈ items, coreOf (f x) = coreOf x)
    (h : ∃ it ∈ items, coreOf it = c) : ∃ it ∈ items.map f, coreOf it = c := by
  rcases h with ⟨it, hmem, hc⟩
  exact ⟨f it, List.mem_map.mpr ⟨it, hmem, rfl⟩, by rw [hf it hmem, hc]⟩

/-- An in-place update keeps every member's id among the old ids. -/
theorem mem_map_id_of_id_preserving {items : List Item} {f : Item → Item}
    (hf : ∀ x ∈ items, (f x).id = x.id) {it : Item} (h : it ∈ items.map f) :
    it.id ∈ items.map (fun x => x.id) := by
  rcases List.mem_map.mp h with ⟨x, hx, rfl⟩
  exact List.mem_map.mpr ⟨x, hx, (hf x hx).symm⟩

/-- patchItem either leaves the items alone (no such id) or maps the one
matching item through applyItemPatch. -/
theorem patchItem_items_cases (now : Int) (iid : Nat) (p : ItemPatch) (w : World) :
    (patchItem now iid p w).items = w.items ∨
    (patchItem now iid p w).items =
      w.items.map (fun x => if x.id == iid then applyItemPatch p x else x) := by
  unfold patchItem
  split
  · exact Or.inl rfl
  · right
    dsimp only
    split
    · split <;> rfl
    · split
      · split <;> rfl
      · rfl

/-- A core-preserving view of patchItem for patches that do not set the
title: the (id, type, completed, title) multiset of items is untouched. -/
theorem patchItem_exists_core {now : Int} {iid : Nat} {p : ItemPatch} {w : World}
    {c : Nat × ItemType × Bool × String} (hp : p.title = none)
    (h : ∃ it ∈ w.items, coreOf it = c) :
    ∃ it ∈ (patchItem now iid p w).items, coreOf it = c := by
  rcases patchItem_items_cases now iid p w with hcase | hcase
  · rw [hcase]; exact h
  · rw [hcase]
    apply exists_core_map ?_ h
    intro x _
    by_cases hx : (x.id == iid) = true
    · rw [if_pos hx]
      exact coreOf_applyItemPatch_of_title_none hp x
    · rw [if_neg hx]

theorem setItemGId_exists_core {items : List Item} {iid g : Nat}
    {c : Nat × ItemType × Bool × String}
    (h : ∃ it ∈ items, coreOf it = c) : ∃ it ∈ setItemGId items iid g, coreOf it = c := by
  unfold setItemGId
  apply exists_core_map ?_ h
  intro x _
  by_cases hx : (x.id == iid) = true
  · rw [if_pos hx]; rfl
  · rw [if_neg hx]

/-- syncCalendarCreate never changes any item's id, type, completed or title
(its only item write is the googleCalendarId link patch). -/
theorem syncCalendarCreate_exists_core {now : Int} {iid : Nat} {title : String}
    {desc loc : Option String} {s eTime : Int} {w : World}
    {c : Nat × ItemType × Bool × String}
    (h : ∃ it ∈ w.items, coreOf it = c) :
    ∃ it ∈ (syncCalendarCreate now iid title desc loc s eTime w).1.items, coreOf it = c := by
  unfold syncCalendarCreate
  by_cases he : title.isEmpty = true
  · rw [if_pos he]; exact h
  · rw [if_neg he]
    cases hres : findCalendarEventByTitleAndTime w.remote title s eTime with
    | none => exact h
    | some g =>
      have h1 : ∃ it ∈ (patchItem now iid
          { ItemPatch.empty with googleCalendarId := some g } w).items, coreOf it = c :=
        patchItem_exists_core rfl h
      dsimp only
      cases hget : getRemoteEvent
          (patchItem now iid { ItemPatch.empty with googleCalendarId := some g } w).remote g with
      | some ev => exact h1
      | none => exact h1

/-- Claim C9. Every local item created from a remote event — by the webhook
pipeline's per-event step (any item it leaves behind whose id no existing
item had) or by createItemFromCalendar (POST /items) during the full sync —
has type event and completed = false, with the remote summary stored
verbatim as the title (Untitled Event only when the summary is empty): the
remote-to-local direction never creates a reminder (the webhook's link and
update branches only rewrite existing items in place), and a reminder-marker
prefix in the summary is kept, not stripped. -/
theorem remote_to_local_creates_events_only :
    (∀ (now : Int) (e : GEvent) (w : World),
       ∀ it ∈ (webhookUpsertFromEvent now e w).items,
         it.id ∉ w.items.map (fun x => x.id) →
         coreOf it = (w.nextItemId, ItemType.event, false, eventTitleOf e)) ∧
    (∀ (now : Int) (g : Nat) (title : String) (desc loc : Option String)
       (s en : Int) (w : World),
       ∃ it ∈ (postItemFromCalendar now g title desc loc s en w).1.items,
         coreOf it = (w.nextItemId, ItemType.event, false, title)) ∧
    (∀ e : GEvent, eventTitleOf e = e.summary ∨
       (e.summary = "" ∧ eventTitleOf e = "Untitled Event")) := by
  refine ⟨?_, ?_, ?_⟩
  · intro now e w it hmem hfresh
    unfold webhookUpsertFromEvent at hmem
    by_cases hgate : shouldProcessWebhookL w.ledger e.id e.updated = true
    · rw [if_pos hgate] at hmem
      cases hfind : findItemByG w.items e.id with
      | some it0 =>
        simp only [hfind] at hmem
        refine absurd (mem_map_id_of_id_preserving (fun x _ => ?_) hmem) hfresh
        by_cases hx : (x.id == it0.id) = true
        · rw [if_pos hx]
        · rw [if_neg hx]
      | none =>
        simp only [hfind] at hmem
        cases hs : e.startDT with
        | none =>
          simp only [hs] at hmem
          exact absurd (List.mem_map.mpr ⟨it, hmem, rfl⟩) hfresh
        | some s =>
          cases hen : e.endDT with
          | none =>
            simp only [hs, hen] at hmem
            exact absurd (List.mem_map.mpr ⟨it, hmem, rfl⟩) hfresh
          | some en =>
            simp only [hs, hen] at hmem
            cases hdup : findItemByTitleTime w.items (eventTitleOf e) s with
            | some dup =>
              simp only [hdup] at hmem
              refine absurd (mem_map_id_of_id_preserving (fun x _ => ?_) hmem) hfresh
              by_cases hx : (x.id == dup.id) = true
              · rw [if_pos hx]
              · rw [if_neg hx]
            | none =>
              simp only [hdup] at hmem
              rcases List.mem_append.mp hmem with h | h
              · exact absurd (List.mem_map.mpr ⟨it, h, rfl⟩) hfresh
              · rw [List.mem_singleton.mp h]
                rfl
    · rw [if_neg hgate] at hmem
      exact absurd (List.mem_map.mpr ⟨it, hmem, rfl⟩) hfresh
  · intro now g title desc loc s en w
    unfold postItemFromCalendar
    dsimp only
    have hbase : ∃ it ∈ ({ w with
        items := w.items ++
          [({ id := w.nextItemId, type := .event, title := title, description := desc,
              location := loc, startDate := some s, endDate := some en,
              reminderTime := none, googleCalendarId := some g,
              completed := false } : Item)],
        nextItemId := w.nextItemId + 1 } : World).items, coreOf it =
          (w.nextItemId, ItemType.event, false, title) :=
      ⟨_, List.mem_append_right _ (List.mem_singleton_self _), rfl⟩
    have h1 : ∃ it ∈ (syncCalendarCreate now w.nextItemId title desc loc s en
        { w with
          items := w.items ++
            [({ id := w.nextItemId, type := .event, title := title, description := desc,
                location := loc, startDate := some s, endDate := some en,
                reminderTime := none, googleCalendarId := some g,
                completed := false } : Item)],
          nextItemId := w.nextItemId + 1 }).1.items, coreOf it =
          (w.nextItemId, ItemType.event, false, title) :=
      syncCalendarCreate_exists_core hbase
    cases hres : (syncCalendarCreate now w.nextItemId title desc loc s en
        { w with
          items := w.items ++
            [({ id := w.nextItemId, type := .event, title := title, description := desc,
                location := loc, startDate := some s, endDate := some en,
                reminderTime := none, googleCalendarId := some g,
                completed := false } : Item)],
          nextItemId := w.nextItemId + 1 }).2 with
    | some gr => exact setItemGId_exists_core h1
    | none => exact h1
  · intro e
    unfold eventTitleOf
    by_cases he : e.summary.isEmpty = true
    · rw [if_pos he]
      exact Or.inr ⟨(summary_isEmpty_iff e.summary).mp he, rfl⟩
    · rw [if_neg he]
      exact Or.inl rfl

/-- Witness for C9: a bell-marked remote event processed by the webhook step
over an empty store leaves behind a freshly-created item, and the theorem
pins its core to an uncompleted event keeping the marker verbatim. -/
theorem remote_to_local_creates_events_only_witness :
    coreOf
      { id := 0, type := ItemType.event, title := "🔔 Pills", description := none,
        location := none, startDate := some 100, endDate := some 200,
        reminderTime := none, googleCalendarId := some 3, completed := false }
      = (0, ItemType.event, false, "🔔 Pills") :=
  remote_to_local_creates_events_only.1 9
    { id := 3, summary := "🔔 Pills", description := none, location := none,
      startDT := some 100, endDT := some 200, updated := 8 }
    emptyWorld
    { id := 0, type := ItemType.event, title := "🔔 Pills", description := none,
      location := none, startDate := some 100, endDate := some 200,
      reminderTime := none, googleCalendarId := some 3, completed := false }
    (by decide) (by decide)

/-! ## Claim C7: provider failures never fail the item mutation -/

/-- item-service POST /items: create the item, then best-effort sync; a
provider/integration failure is caught and logged (error case), a null result
skips the link (ok none); only a returned id links the item. The response is
201 with the created item in every case. -/
def postItemRoute (store : List Item) (item : Item)
    (syncRes : Except Unit (Option Nat)) : Nat × List Item :=
  let store1 := store ++ [item]
  match syncRes with
  | .error _ => (201, store1)
  | .ok none => (201, store1)
  | .ok (some g) => (201, setItemGId store1 item.id g)

/-- item-service PATCH /items/:id: 404 when the item is missing, else update
it; the calendar echo is fire-and-forget — its error is caught. -/
def patchItemRoute (store : List Item) (iid : Nat) (p : ItemPatch)
    (syncRes : Except Unit Unit) : Option (Nat × List Item) :=
  match findItemById store iid with
  | none => none
  | some _ =>
    let store1 := store.map (fun x => if x.id == iid then applyItemPatch p x else x)
    match syncRes with
    | .error _ => some (200, store1)
    | .ok _ => some (200, store1)

/-- item-service DELETE /items/:id: 404 when missing; the remote deletion is
attempted first and its failure caught; the local delete then proceeds. -/
def deleteItemRoute (store : List Item) (iid : Nat)
    (syncRes : Except Unit Unit) : Option (Nat × List Item) :=
  match findItemById store iid with
  | none => none
  | some _ =>
    let store1 := store.filter (fun x => x.id != iid)
    match syncRes with
    | .error _ => some (200, store1)
    | .ok _ => some (200, store1)

/-- Claim C7. For every local item mutation that triggers a push to the
provider, a provider failure during the push never fails the mutation: POST
still answers 201 with the item stored (just unlinked), PATCH still answers
200 with the fields applied, DELETE still answers 200 with the item gone —
each identical to what a successful push would have produced locally. -/
theorem provider_failure_nonfatal :
    (∀ (store : List Item) (item : Item) (syncRes : Except Unit (Option Nat)),
       (postItemRoute store item syncRes).1 = 201 ∧
       ∃ it ∈ (postItemRoute store item syncRes).2, coreOf it = coreOf item) ∧
    (∀ (store : List Item) (iid : Nat) (p : ItemPatch) (it0 : Item),
       findItemById store iid = some it0 →
       ∀ syncRes : Except Unit Unit,
         patchItemRoute store iid p syncRes =
           some (200, store.map (fun x => if x.id == iid then applyItemPatch p x else x))) ∧
    (∀ (store : List Item) (iid : Nat) (it0 : Item),
       findItemById store iid = some it0 →
       ∀ syncRes : Except Unit Unit,
         deleteItemRoute store iid syncRes =
           some (200, store.filter (fun x => x.id != iid))) := by
  refine ⟨?_, ?_, ?_⟩
  · intro store item syncRes
    match syncRes with
    | .error _ =>
      exact ⟨rfl, item, List.mem_append_right _ (List.mem_singleton_self _), rfl⟩
    | .ok none =>
      exact ⟨rfl, item, List.mem_append_right _ (List.mem_singleton_self _), rfl⟩
    | .ok (some g) =>
      refine ⟨rfl, ?_⟩
      apply setItemGId_exists_core
      exact ⟨item, List.mem_append_right _ (List.mem_singleton_self _), rfl⟩
  · intro store iid p it0 hfind syncRes
    unfold patchItemRoute
    rw [hfind]
    match syncRes with
    | .error _ => rfl
    | .ok _ => rfl
  · intro store iid it0 hfind syncRes
    unfold deleteItemRoute
    rw [hfind]
    match syncRes with
    | .error _ => rfl
    | .ok _ => rfl

/-- Witness for C7: a failing provider still yields 201 / 200 responses. -/
theorem provider_failure_nonfatal_witness :
    (postItemRoute [] sweepWitnessItem (.error ())).1 = 201 ∧
    patchItemRoute [sweepWitnessItem] 1 ItemPatch.empty (.error ()) =
      some (200, [sweepWitnessItem].map (fun x =>
        if x.id == 1 then applyItemPatch ItemPatch.empty x else x)) ∧
    deleteItemRoute [sweepWitnessItem] 1 (.error ()) =
      some (200, [sweepWitnessItem].filter (fun x => x.id != 1)) := by
  refine ⟨?_, ?_, ?_⟩
  · exact (provider_failure_nonfatal.1 [] sweepWitnessItem (.error ())).1
  · exact provider_failure_nonfatal.2.1 [sweepWitnessItem] 1 ItemPatch.empty
      sweepWitnessItem (by decide) (.error ())
  · exact provider_failure_nonfatal.2.2 [sweepWitnessItem] 1 sweepWitnessItem
      (by decide) (.error ())

/-! ## Claim C4: the reminder projection -/

/-- item-service POST /items for a reminder carrying a reminderTime
(items.routes.ts lines 188-218): create the item, then push it as a provider
event spanning reminderTime to reminderTime + 15 minutes under the
bell-marker title, via POST /sync/calendar/create; a returned external id is
stored on the item. -/
def postReminderItem (now : Int) (title : String) (desc loc : Option String)
    (rt : Int) (w : World) : World × Nat :=
  let iid := w.nextItemId
  let newItem : Item :=
    { id := iid, type := .reminder, title := title, description := desc, location := loc,
      startDate := none, endDate := none, reminderTime := some rt,
      googleCalendarId := none, completed := false }
  let w1 := { w with items := w.items ++ [newItem], nextItemId := iid + 1 }
  let r := syncCalendarCreate now iid (bellMark ++ title) desc loc rt
    (rt + fifteenMinutesMs) w1
  match r.2 with
  | some gr => ({ r.1 with items := setItemGId r.1.items iid gr }, iid)
  | none => (r.1, iid)

/-- A world whose only item is an unsynced reminder whose startDate differs
from its reminderTime. -/
def reminderMismatchWorld : World :=
  { remote := [],
    items := [
      { id := 1, type := .reminder, title := "R", description := none, location := none,
        startDate := some 500000, endDate := none, reminderTime := some 1000,
        googleCalendarId := none, completed := false }],
    ledger := [], nextGId := 100, nextItemId := 2 }

/-- Counterexample to C4 as stated: the full-sync sweep pushes the reminder
(reminderTime = 1000) to the provider, but the one event it creates spans
[500000, 1400000] — the reminder's startDate plus 15 minutes — not
[1000, 901000] as the claim requires; the sweep's reminder branch reads
startDate, not reminderTime. -/
theorem reminder_projection_counterexample :
    (fullSync 70 0 1000000000 reminderMismatchWorld).1.remote =
      [{ id := 100, summary := bellMark ++ "R", description := some "",
         location := some "", startDT := some 500000, endDT := some 1400000,
         updated := 70 }] ∧
    (fullSync 70 0 1000000000 reminderMismatchWorld).2.a2gCreated = 1 ∧
    (500000 : Int) ≠ 1000 := by
  refine ⟨by decide, by decide, by decide⟩

theorem dropWhile_cons_false {c : Char} {l : List Char} (h : isWS c = false) :
    (c :: l).dropWhile isWS = c :: l := by
  rw [List.dropWhile_cons, h]
  simp

theorem head_nonws_of_dropWhile_self {c : Char} {l : List Char}
    (h : (c :: l).dropWhile isWS = c :: l) : isWS c = false := by
  cases hc : isWS c with
  | false => rfl
  | true =>
    rw [List.dropWhile_cons, hc] at h
    simp only [if_true] at h
    have hlen := congrArg List.length h
    have hle := (List.dropWhile_sublist (l := l) isWS).length_le
    rw [hlen] at hle
    simp at hle

theorem dropWhile_selfs_of_trim_self {l : List Char} (h : trimChars l = l) :
    l.dropWhile isWS = l ∧ l.reverse.dropWhile isWS = l.reverse := by
  unfold trimChars at h
  have hle1 : (l.dropWhile isWS).length ≤ l.length :=
    (List.dropWhile_sublist isWS).length_le
  have hle2 : ((l.dropWhile isWS).reverse.dropWhile isWS).length ≤
      (l.dropWhile isWS).reverse.length :=
    (List.dropWhile_sublist isWS).length_le
  rw [List.length_reverse] at hle2
  have hlen : (((l.dropWhile isWS).reverse.dropWhile isWS).reverse).length = l.length := by
    rw [h]
  rw [List.length_reverse] at hlen
  have h1len : (l.dropWhile isWS).length = l.length := by omega
  have h1 : l.dropWhile isWS = l :=
    (List.dropWhile_suffix isWS).eq_of_length h1len
  refine ⟨h1, ?_⟩
  rw [h1] at h
  have := congrArg List.reverse h
  rw [List.reverse_reverse] at this
  rw [this]

theorem title_data_of_trim {title : String} (h : strTrim title = title) :
    trimChars title.data = title.data :=
  congrArg String.data h

theorem string_eq_of_data {s t : String} (h : s.data = t.data) : s = t := by
  cases s
  cases t
  cases h
  rfl

theorem string_nonempty_data {title : String} (h : title ≠ "") : title.data ≠ [] := by
  intro hcon
  exact h (string_eq_of_data (by rw [hcon]))

/-- The stripping lemma: for a nonempty, trimmed title, the resolver's title
comparison accepts the bell-marked form against the bare title. -/
theorem titleMatches_strips_marker (title : String) (hne : title ≠ "")
    (hclean : strTrim title = title) :
    titleMatches (bellMark ++ title) title = true := by
  have htd : trimChars title.data = title.data := title_data_of_trim hclean
  obtain ⟨hdrop, hdropr⟩ := dropWhile_selfs_of_trim_self htd
  have hnn : title.data ≠ [] := string_nonempty_data hne
  obtain ⟨c, rest, hrev⟩ : ∃ c rest, title.data.reverse = c :: rest := by
    cases hr : title.data.reverse with
    | nil =>
      exact absurd (by simpa using congrArg List.reverse hr) hnn
    | cons c rest => exact ⟨c, rest, rfl⟩
  have hcnonws : isWS c = false := by
    apply head_nonws_of_dropWhile_self
    rw [← hrev]
    exact hdropr
  have hdata : (bellMark ++ title).data = bellChar :: ' ' :: title.data := rfl
  have hheadnonws : ∀ l', title.data = l' → l'.dropWhile isWS = l' := by
    intro l' hl'
    rw [← hl']
    exact hdrop
  have het : strTrim (bellMark ++ title) = bellMark ++ title := by
    apply string_eq_of_data
    show trimChars (bellMark ++ title).data = (bellMark ++ title).data
    rw [hdata]
    unfold trimChars
    rw [dropWhile_cons_false (by decide)]
    have hrw : (bellChar :: ' ' :: title.data).reverse =
        c :: (rest ++ [' ', bellChar]) := by
      rw [List.reverse_cons, List.reverse_cons, hrev]
      simp
    rw [hrw, dropWhile_cons_false hcnonws, ← hrw, List.reverse_reverse]
  have hstripped : strTrim (strDrop1 (strTrim (bellMark ++ title))) = title := by
    rw [het]
    apply string_eq_of_data
    show trimChars ((bellMark ++ title).data.drop 1) = title.data
    rw [hdata]
    show trimChars (' ' :: title.data) = title.data
    unfold trimChars
    rw [List.dropWhile_cons]
    have hws : isWS ' ' = true := by decide
    rw [hws]
    simp only [if_true]
    rw [hdrop, hdropr, List.reverse_reverse]
  have hneqstr : (bellMark ++ title) ≠ title := by
    intro hcon
    have hlencon : (bellMark ++ title).data.length = title.data.length := by rw [hcon]
    rw [hdata] at hlencon
    simp at hlencon
    omega
  unfold titleMatches
  rw [het, hclean]
  dsimp only
  have hbeq : ((bellMark ++ title) == title) = false := by
    rw [beq_eq_false_iff_ne]
    exact hneqstr
  rw [hbeq]
  simp only [Bool.false_eq_true, if_false]
  have hsb : startsWithBell (bellMark ++ title) = true := by
    unfold startsWithBell
    rw [hdata]
    simp
  rw [hsb]
  simp only [if_true]
  rw [het] at hstripped
  rw [hstripped]
  simp

/-- Claim C4, amended. On creation via the item route, a Reminder with
reminderTime = T is pushed as a provider event spanning exactly
[T, T + 15 min] with the bell-marker title. During the full-sync sweep,
however, the reminder branch reads the reminder's startDate S (reminders
without a startDate are skipped), producing an event spanning
[S, S + 15 min] under the same marker — which agrees with the claim only
when startDate = reminderTime. The reverse lookup strips exactly that
marker before title matching (for nonempty trimmed titles). -/
theorem reminder_projection_amended :
    (∀ (now : Int) (title : String) (desc loc : Option String) (rt : Int) (w : World),
       findCalendarEventByTitleAndTime w.remote (bellMark ++ title) rt
         (rt + fifteenMinutesMs) = none →
       ∃ e ∈ (postReminderItem now title desc loc rt w).1.remote,
         e.id = w.nextGId ∧ e.summary = bellMark ++ title ∧
         e.startDT = some rt ∧ e.endDT = some (rt + fifteenMinutesMs)) ∧
    (∀ (now : Int) (gmap : List GEvent) (it : Item) (w : World) (st : Stats) (s : Int),
       it.type = ItemType.reminder → it.startDate = some s →
       findCalendarEventByTitleAndTime w.remote (bellMark ++ it.title) s
         (s + fifteenMinutesMs) = none →
       ∃ e ∈ (processAppItem now gmap (w, st) it).1.remote,
         e.id = w.nextGId ∧ e.summary = bellMark ++ it.title ∧
         e.startDT = some s ∧ e.endDT = some (s + fifteenMinutesMs)) ∧
    (∀ title : String, title ≠ "" → strTrim title = title →
       titleMatches (bellMark ++ title) title = true) := by
  refine ⟨?_, ?_, titleMatches_strips_marker⟩
  · intro now title desc loc rt w hres
    have hne : (bellMark ++ title).isEmpty = false := by
      cases hie : (bellMark ++ title).isEmpty with
      | false => rfl
      | true =>
        have := (summary_isEmpty_iff _).mp hie
        exact absurd (congrArg String.data this) (by simp [bellMark])
    unfold postReminderItem syncCalendarCreate
    dsimp only
    rw [hne]
    simp only [Bool.false_eq_true, if_false, hres]
    refine ⟨_, List.mem_append_right _ (List.mem_singleton_self _), rfl, rfl, rfl, rfl⟩
  · intro now gmap it w st s htype hsd hres
    unfold processAppItem
    rw [htype, hsd]
    simp only [hres]
    refine ⟨_, List.mem_append_right _ (List.mem_singleton_self _), rfl, rfl, rfl, rfl⟩

/-- Witness for the amended C4: a fresh reminder at rt = 1000 lands remotely
as a bell-marked event over [1000, 901000]. -/
theorem reminder_projection_amended_witness :
    ∃ e ∈ (postReminderItem 7 "Pills" none none 1000 emptyWorld).1.remote,
      e.id = 0 ∧ e.summary = bellMark ++ "Pills" ∧
      e.startDT = some 1000 ∧ e.endDT = some (1000 + fifteenMinutesMs) :=
  reminder_projection_amended.1 7 "Pills" none none 1000 emptyWorld rfl

/-! ## Claim C3: idempotence of the full sync

The counterexample below shows the claim fails as stated: an unlinked remote
event that title-and-time-matches an item linked to a different event steals
the link on the first run, and the orphaned event forces a googleToApp create
on the second run. The amended theorem then proves the claim for windows in a
fully-linked steady state. -/

/-- Item 1 (title A) is linked to remote event 10, whose summary was renamed
remotely to B without its updated timestamp passing the record's
lastAppModified (e.g. the rename was pushed from the app but the following
markAppModified ran against a newer local edit); remote event 11, titled A at
the same time, has no local counterpart. -/
def fullSyncCexWorld : World :=
  { remote := [
      { id := 10, summary := "B", description := none, location := none,
        startDT := some 1000, endDT := some 2000, updated := 50 },
      { id := 11, summary := "A", description := none, location := none,
        startDT := some 1000, endDT := some 2000, updated := 50 }],
    items := [
      { id := 1, type := .event, title := "A", description := none, location := none,
        startDate := some 1000, endDate := some 2000, reminderTime := none,
        googleCalendarId := some 10, completed := false }],
    ledger := [
      { itemId := 1, googleCalendarId := 10, lastAppModified := 60,
        lastGoogleModified := some 50, syncing := false }],
    nextGId := 100, nextItemId := 2 }

/-- Counterexample to C3 as stated: running the full sync twice over the same
window with no intervening change on either side performs one googleToApp
create on the second run — the first run re-links item 1 from event 10 to
event 11 through the title-and-time duplicate check, so the second run finds
event 10 unmatched and creates a fresh item from it. -/
theorem full_sync_idempotence_counterexample :
    (fullSync 200 0 1000000000 (fullSync 70 0 1000000000 fullSyncCexWorld).1).2.g2aCreated
      = 1 := by
  decide

/-! ### Generic helpers for the steady-state theorem -/

theorem nodup_map_unique {κ : α → β} {l : List α} {a b : α}
    (hnd : (l.map κ).Nodup) (ha : a ∈ l) (hb : b ∈ l) (hk : κ a = κ b) : a = b := by
  by_cases hab : a = b
  · exact hab
  · exfalso
    obtain ⟨s, t, hst⟩ := List.append_of_mem ha
    subst hst
    rw [List.map_append, List.map_cons] at hnd
    have hnd2 := (List.nodup_append.mp hnd).2.1
    rw [List.nodup_cons] at hnd2
    have hdisj := (List.nodup_append.mp hnd).2.2
    rcases List.mem_append.mp hb with hbs | hbt
    · exact hdisj (List.mem_map.mpr ⟨b, hbs, hk.symm⟩)
        (List.mem_cons_self _ _)
    · rcases List.mem_cons.mp hbt with rfl | hbt2
      · exact hab rfl
      · exact hnd2.1 (List.mem_map.mpr ⟨b, hbt2, hk.symm⟩)

theorem find?_key_unique {β : Type v} [BEq β] [LawfulBEq β] (κ : α → β) {k : β}
    {l : List α} {r : α} (hm : r ∈ l) (hk : κ r = k) (hnd : (l.map κ).Nodup) :
    l.find? (fun x => κ x == k) = some r := by
  induction l with
  | nil => cases hm
  | cons a as ih =>
    rw [List.map_cons, List.nodup_cons] at hnd
    rcases List.mem_cons.mp hm with rfl | hm2
    · rw [List.find?_cons_of_pos]
      simpa using hk
    · have hak : (κ a == k) = false := by
        rw [beq_eq_false_iff_ne]
        intro hcon
        exact hnd.1 (List.mem_map.mpr ⟨r, hm2, by rw [hk, hcon]⟩)
      rw [List.find?_cons_of_neg _ (by simp [hak])]
      exact ih hm2 hnd.2

theorem mem_updateFirst_of_not {p : α → Bool} {f : α → α} {r : α} :
    ∀ {l : List α}, r ∈ l → p r = false → r ∈ updateFirst p f l := by
  intro l
  induction l with
  | nil => intro h; cases h
  | cons a as ih =>
    intro hm hpr
    by_cases ha : p a = true
    · simp only [updateFirst, ha, if_true]
      rcases List.mem_cons.mp hm with rfl | hm2
      · rw [ha] at hpr; cases hpr
      · exact List.mem_cons_of_mem _ hm2
    · simp only [updateFirst, ha, if_false]
      rcases List.mem_cons.mp hm with rfl | hm2
      · exact List.mem_cons_self _ _
      · exact List.mem_cons_of_mem _ (ih hm2 hpr)

theorem forall₂_mem_left {R : α → β → Prop} :
    ∀ {l₁ : List α} {l₂ : List β}, List.Forall₂ R l₁ l₂ → ∀ a ∈ l₁, ∃ b ∈ l₂, R a b := by
  intro l₁ l₂ h
  induction h with
  | nil => intro a ha; cases ha
  | cons hab htail ih =>
    intro x hx
    rcases List.mem_cons.mp hx with rfl | hx2
    · exact ⟨_, List.mem_cons_self _ _, hab⟩
    · obtain ⟨b, hb, hrb⟩ := ih x hx2
      exact ⟨b, List.mem_cons_of_mem _ hb, hrb⟩

theorem forall₂_map_eq {R : α → β → Prop} {κ₁ : α → γ} {κ₂ : β → γ}
    (hk : ∀ a b, R a b → κ₁ a = κ₂ b) :
    ∀ {l₁ : List α} {l₂ : List β}, List.Forall₂ R l₁ l₂ → l₁.map κ₁ = l₂.map κ₂ := by
  intro l₁ l₂ h
  induction h with
  | nil => rfl
  | cons hab htail ih =>
    rw [List.map_cons, List.map_cons, hk _ _ hab, ih]

theorem forall₂_map_self_left {R : α → α → Prop} {f : α → α}
    (hf : ∀ a ∈ l, R (f a) a) :
    List.Forall₂ R (l.map f) l := by
  induction l with
  | nil => exact List.Forall₂.nil
  | cons a as ih =>
    exact List.Forall₂.cons (hf a (List.mem_cons_self a as))
      (ih (fun x hx => hf x (List.mem_cons_of_mem a hx)))

theorem forall₂_trans_comp {R S T : α → α → Prop}
    (hcomp : ∀ a b c, R a b → S b c → T a c) :
    ∀ {l₁ l₂ l₃ : List α}, List.Forall₂ R l₁ l₂ → List.Forall₂ S l₂ l₃ →
      List.Forall₂ T l₁ l₃ := by
  intro l₁ l₂ l₃ h
  induction h generalizing l₃ with
  | nil =>
    intro h2
    cases h2
    exact List.Forall₂.nil
  | cons hab htail ih =>
    intro h2
    cases h2 with
    | cons hbc htail2 =>
      exact List.Forall₂.cons (hcomp _ _ _ hab hbc) (ih htail2)

/-! ### Ledger lemmas under coherence -/

def itemKey (it : Item) : Nat × Option Nat := (it.id, it.googleCalendarId)

/-- Every ledger row whose itemId names a live item agrees with that item's
stored googleCalendarId. -/
def Coherent (ledger : List SyncRec) (pairs : List (Nat × Option Nat)) : Prop :=
  ∀ r ∈ ledger, ∀ pr ∈ pairs, pr.1 = r.itemId → pr.2 = some r.googleCalendarId

theorem eraseConflict_eq_self {ledger : List SyncRec} {pairs : List (Nat × Option Nat)}
    {i g : Nat} (hco : Coherent ledger pairs) (hpr : (i, some g) ∈ pairs) :
    eraseConflict ledger i g = ledger := by
  unfold eraseConflict
  apply List.eraseP_of_forall_not
  intro r hr hcon
  simp only [Bool.and_eq_true, beq_iff_eq, bne_iff_ne, ne_eq] at hcon
  have hthis := hco r hr (i, some g) hpr hcon.1.symm
  injection hthis with hg
  exact hcon.2 hg.symm

theorem findRec_some_gid {l : List SyncRec} {g : Nat} {r : SyncRec}
    (h : findRec l g = some r) : r.googleCalendarId = g := by
  have := List.find?_some h
  simpa using this

theorem findRec_some_mem {l : List SyncRec} {g : Nat} {r : SyncRec}
    (h : findRec l g = some r) : r ∈ l :=
  List.mem_of_find?_eq_some h

/-- Looking up the written key after markGoogleModified: the row exists,
carries the preserved (or defaulted) lastAppModified, and the new remote
timestamp. -/
theorem findRec_markGoogleModified (i g : Nat) (t now : Int) (l : List SyncRec) :
    ∃ r, findRec (markGoogleModified i g t now l) g = some r ∧
      r.lastAppModified = (match findRec l g with
        | some r0 => r0.lastAppModified
        | none => now) := by
  unfold markGoogleModified
  set l1 := eraseConflict l i g with hl1
  by_cases h : (findRec l1 g).isSome = true
  · simp only [h, if_true]
    have hpres : ∀ r : SyncRec, (r.googleCalendarId == g) = true →
        (({ r with
            itemId := i, lastGoogleModified := some t,
            lastAppModified := (match findRec l g with
              | some r0 => r0.lastAppModified
              | none => now),
            syncing := false } : SyncRec).googleCalendarId == g) = true := by
      intro r hr; simpa using hr
    have := @find?_updateFirst SyncRec (fun r : SyncRec => r.googleCalendarId == g)
      (fun r => { r with
        itemId := i, lastGoogleModified := some t,
        lastAppModified := (match findRec l g with
          | some r0 => r0.lastAppModified
          | none => now),
        syncing := false })
      hpres l1 h
    rcases Option.isSome_iff_exists.mp h with ⟨r0, hr0⟩
    refine ⟨{ r0 with
      itemId := i, lastGoogleModified := some t,
      lastAppModified := (match findRec l g with
        | some r1 => r1.lastAppModified
        | none => now),
      syncing := false }, ?_, rfl⟩
    unfold findRec at *
    rw [this, hr0]
    rfl
  · rw [if_neg h]
    refine ⟨{
      itemId := i, googleCalendarId := g,
      lastAppModified := (match findRec l g with
        | some r1 => r1.lastAppModified
        | none => now),
      lastGoogleModified := some t, syncing := false }, ?_, rfl⟩
    unfold findRec
    rw [List.find?_cons_of_pos]
    simp

/-- A row keyed by another googleCalendarId survives markAppModified
untouched once the conflict deletion is a no-op. -/
theorem mem_markAppModified_of_ne {l : List SyncRec} {i g : Nat} {now : Int}
    {r : SyncRec} (hera : eraseConflict l i g = l) (hr : r ∈ l)
    (hne : r.googleCalendarId ≠ g) : r ∈ markAppModified i g now l := by
  unfold markAppModified
  rw [hera]
  have hpr : (fun x : SyncRec => x.googleCalendarId == g) r = false := by
    simp [hne]
  by_cases hs : (findRec l g).isSome = true
  · simp only [hs, if_true]
    exact mem_updateFirst_of_not hr hpr
  · rw [if_neg hs]
    exact List.mem_cons_of_mem _ hr

theorem mem_markGoogleModified_of_ne {l : List SyncRec} {i g : Nat} {t now : Int}
    {r : SyncRec} (hera : eraseConflict l i g = l) (hr : r ∈ l)
    (hne : r.googleCalendarId ≠ g) : r ∈ markGoogleModified i g t now l := by
  unfold markGoogleModified
  rw [hera]
  have hpr : (fun x : SyncRec => x.googleCalendarId == g) r = false := by
    simp [hne]
  by_cases hs : (findRec l g).isSome = true
  · simp only [hs, if_true]
    exact mem_updateFirst_of_not hr hpr
  · rw [if_neg hs]
    exact List.mem_cons_of_mem _ hr

/-- Coherence is preserved by the conflict-delete-then-upsert shape whenever
the acting (itemId, googleCalendarId) pair is live and item ids are unique. -/
theorem coherent_upsertByG {l : List SyncRec} {pairs : List (Nat × Option Nat)}
    {i g : Nat} (f : SyncRec → SyncRec) (mk : SyncRec)
    (hfI : ∀ r, (f r).itemId = i) (hfG : ∀ r, (f r).googleCalendarId = r.googleCalendarId)
    (hmkI : mk.itemId = i) (hmkG : mk.googleCalendarId = g)
    (hco : Coherent l pairs) (hpr : (i, some g) ∈ pairs)
    (hnd : (pairs.map Prod.fst).Nodup) :
    Coherent (
      if (findRec (eraseConflict l i g) g).isSome then
        updateFirst (fun r => r.googleCalendarId == g) f (eraseConflict l i g)
      else mk :: eraseConflict l i g) pairs := by
  have hera : eraseConflict l i g = l := eraseConflict_eq_self hco hpr
  rw [hera]
  have hkey : ∀ (r : SyncRec), r.itemId = i → r.googleCalendarId = g →
      ∀ pr ∈ pairs, pr.1 = r.itemId → pr.2 = some r.googleCalendarId := by
    intro r hri hrg pr hprm hpr1
    have : pr = (i, some g) := by
      apply nodup_map_unique hnd hprm hpr
      rw [hpr1, hri]
    rw [this, hrg]
  by_cases hs : (findRec l g).isSome = true
  · rw [if_pos hs]
    intro r hr pr hprm hpr1
    rcases mem_updateFirst hr with hrl | ⟨y, hy, hpy, rfl⟩
    · exact hco r hrl pr hprm hpr1
    · have hyg : y.googleCalendarId = g := by simpa using hpy
      exact hkey (f y) (hfI y) (by rw [hfG y, hyg]) pr hprm hpr1
  · rw [if_neg hs]
    intro r hr pr hprm hpr1
    rcases List.mem_cons.mp hr with rfl | hrl
    · exact hkey r hmkI hmkG pr hprm hpr1
    · exact hco r hrl pr hprm hpr1

theorem coherent_markAppModified {l : List SyncRec} {pairs : List (Nat × Option Nat)}
    {i g : Nat} {now : Int} (hco : Coherent l pairs) (hpr : (i, some g) ∈ pairs)
    (hnd : (pairs.map Prod.fst).Nodup) :
    Coherent (markAppModified i g now l) pairs :=
  coherent_upsertByG
    (fun r => { r with itemId := i, lastAppModified := now, syncing := true })
    { itemId := i, googleCalendarId := g, lastAppModified := now,
      lastGoogleModified := none, syncing := true }
    (fun _ => rfl) (fun _ => rfl) rfl rfl hco hpr hnd

theorem coherent_markGoogleModified {l : List SyncRec} {pairs : List (Nat × Option Nat)}
    {i g : Nat} {t now : Int} (hco : Coherent l pairs) (hpr : (i, some g) ∈ pairs)
    (hnd : (pairs.map Prod.fst).Nodup) :
    Coherent (markGoogleModified i g t now l) pairs :=
  coherent_upsertByG
    (fun r => { r with itemId := i, lastGoogleModified := some t,
                       lastAppModified := match findRec l g with
                         | some r0 => r0.lastAppModified
                         | none => now,
                       syncing := false })
    { itemId := i, googleCalendarId := g,
      lastAppModified := match findRec l g with
        | some r0 => r0.lastAppModified
        | none => now,
      lastGoogleModified := some t, syncing := false }
    (fun _ => rfl) (fun _ => rfl) rfl rfl hco hpr hnd

/-! ### The steady state of a sync window -/

/-- A window is in a fully-linked steady state: every valid listed event has
a local item linked by googleCalendarId and is suppressed by the ledger
(lastAppModified not older than the event's updated stamp); every in-window
linked item still has its event among the valid listed ids; and no in-window
syncable item is unlinked. -/
def SteadyFor (winS winE : Int) (w : World) : Prop :=
  (∀ e ∈ listRemote winS winE w.remote, validEvent e = true →
    (findItemByG w.items e.id).isSome = true ∧
    fullSyncShouldUpdate w.ledger e.id e.updated = false) ∧
  ((sweepCandidates winS winE w.items).all (fun it =>
    match it.googleCalendarId with
    | some g => (listedValidIds (listRemote winS winE w.remote)).contains g
    | none => true) = true) ∧
  step3Candidates winS winE w.items = []

instance instDecidableSteadyFor (winS winE : Int) (w : World) :
    Decidable (SteadyFor winS winE w) := by
  unfold SteadyFor
  infer_instance

/-- One google→app step is the identity once the event's item is linked and
the ledger suppresses the update. -/
theorem processGoogleEvent_id {now : Int} {e : GEvent} {w : World} {st : Stats}
    (h : validEvent e = true →
      (findItemByG w.items e.id).isSome = true ∧
      fullSyncShouldUpdate w.ledger e.id e.updated = false) :
    processGoogleEvent now e (w, st) = (w, st) := by
  unfold processGoogleEvent
  dsimp only
  cases hs : e.startDT with
  | none => rfl
  | some es =>
    cases he : e.endDT with
    | none => rfl
    | some ee =>
      have hv : validEvent e = true := by simp [validEvent, hs, he]
      obtain ⟨h1, h2⟩ := h hv
      rcases Option.isSome_iff_exists.mp h1 with ⟨it, hit⟩
      rw [hit]
      dsimp only
      rw [h2]
      rfl

theorem foldl_processGoogleEvent_id {now : Int} {w : World} {st : Stats} :
    ∀ {listing : List GEvent},
      (∀ e ∈ listing, validEvent e = true →
        (findItemByG w.items e.id).isSome = true ∧
        fullSyncShouldUpdate w.ledger e.id e.updated = false) →
      listing.foldl (fun acc e => processGoogleEvent now e acc) (w, st) = (w, st) := by
  intro listing
  induction listing with
  | nil => intro _; rfl
  | cons e es ih =>
    intro h
    rw [List.foldl_cons, processGoogleEvent_id (h e (List.mem_cons_self e es))]
    exact ih (fun x hx => h x (List.mem_cons_of_mem e hx))

/-- The deletion sweep is the identity when every candidate's linked id is
among the listed ids. -/
theorem foldl_sweepStep_id {ids : List Nat} :
    ∀ {cands : List Item} {acc : List Item × List SyncRec × Nat},
      (∀ it ∈ cands, (match it.googleCalendarId with
        | some g => ids.contains g
        | none => true) = true) →
      cands.foldl (sweepStep ids) acc = acc := by
  intro cands
  induction cands with
  | nil => intro _ _; rfl
  | cons it its ih =>
    intro acc h
    rw [List.foldl_cons]
    have hstep : sweepStep ids acc it = acc := by
      have hthis := h it (List.mem_cons_self it its)
      unfold sweepStep
      cases hg : it.googleCalendarId with
      | none => rfl
      | some g =>
        simp only [hg] at hthis
        dsimp only
        rw [if_pos hthis]
    rw [hstep]
    exact ih (fun x hx => h x (List.mem_cons_of_mem it hx))

/-- A full sync over a steady window changes nothing and reports all-zero
counters. -/
theorem steady_fullSync (now winS winE : Int) (w : World)
    (h : SteadyFor winS winE w) :
    fullSync now winS winE w = (w, Stats.zero) := by
  obtain ⟨h1, h2, h3⟩ := h
  unfold fullSync
  dsimp only
  rw [foldl_processGoogleEvent_id h1]
  dsimp only
  have hsw : runSweep (listedValidIds (listRemote winS winE w.remote))
      (sweepCandidates winS winE w.items) w.items w.ledger
      = (w.items, w.ledger, 0) := by
    unfold runSweep
    exact foldl_sweepStep_id (List.all_eq_true.mp h2)
  rw [hsw]
  dsimp only
  rw [h3]
  rfl

/-- Claim C3, amended. Running the full sync twice in a row over the same
window with no intervening external change yields zero creates and zero
updates (both googleToApp and appToGoogle counters) on the second run,
provided the first run leaves the window in a fully-linked steady state:
every valid listed event is linked by googleCalendarId to a local item and
suppressed by the ledger, every in-window linked item still has its event
listed, and no in-window syncable item is unlinked. Unconditionally the
claim fails: the first run can re-link an item away from its event through
the title-and-time duplicate check, forcing a googleToApp create on the
second run. -/
theorem full_sync_idempotent_amended (now now2 winS winE : Int) (w : World)
    (h : SteadyFor winS winE (fullSync now winS winE w).1) :
    (fullSync now2 winS winE (fullSync now winS winE w).1).2 = Stats.zero :=
  congrArg Prod.snd (steady_fullSync now2 winS winE _ h)

def steadySeedWorld : World :=
  { remote := [
      { id := 0, summary := "X", description := none, location := none,
        startDT := some 500, endDT := some 600, updated := 42 }],
    items := [
      { id := 1, type := .event, title := "X", description := none, location := none,
        startDate := some 500, endDate := some 600, reminderTime := none,
        googleCalendarId := some 0, completed := false }],
    ledger := [
      { itemId := 1, googleCalendarId := 0, lastAppModified := 10,
        lastGoogleModified := some 42, syncing := false }],
    nextGId := 5, nextItemId := 2 }

theorem full_sync_idempotent_amended_witness :
    (fullSync 3000 0 2000 (fullSync 1000 0 2000 steadySeedWorld).1).2 = Stats.zero :=
  full_sync_idempotent_amended 1000 3000 0 2000 steadySeedWorld (by decide)

end Keysha
